import Mathlib

/-!
Verification of the MCP demo client (`mcp_client_demo.py`).

The client speaks a length-prefixed JSON protocol: each frame is a 4-byte
big-endian unsigned length followed by that many bytes of UTF-8 JSON
(`MCPClient._write_message` / `MCPClient._read_message`).  This file embeds the
parts of the client that the specification claims talk about:

  * a `Json` value type together with a renderer mirroring
    `json.dumps(obj, separators=(",", ":"), ensure_ascii=False)` and a parser
    mirroring `json.loads` on whitespace-free documents (every document the
    encoder emits is whitespace-free);
  * a UTF-8 byte codec (`str.encode("utf-8")` / `bytes.decode("utf-8")`);
  * the frame codec (`struct.pack(">I", len)` framing and exact reads);
  * the correlation registry (`self._response_futures`), message dispatch
    (`MCPClient._handle_message`) and the reader loop (`MCPClient._reader_loop`);
  * the client life cycle (`connect`, `close`, `send_request`,
    `_heartbeat_loop`, `_next_msg_id`).

Machine integers do not arise: Python integers are unbounded, so `Nat`/`Int`
model them directly; the only width that matters is the 32-bit bound that
`struct.pack(">I", ...)` enforces, kept as an explicit `< 2 ^ 32` side
condition.
-/


/-! ### JSON values

`json.loads` can return any of: `None`, `bool`, `int`, `str`, `list`, `dict`.
Floating point payloads are outside this embedding.  Strings are lists of
characters (Python `str` is a sequence of code points); objects are ordered
association lists, matching the insertion order that Python dicts preserve
and that `json.dumps` serialises. -/

inductive Json where
  | null
  | bool (b : Bool)
  | int (n : Int)
  | str (s : List Char)
  | arr (items : List Json)
  | obj (members : List (List Char × Json))

/-! ### Decimal digits

`json.dumps` renders a Python `int` via its decimal representation. -/

/-- The character for a decimal digit value. -/
def digitChar (n : Nat) : Char := Char.ofNat (48 + n)

/-- Decimal digit characters of `n`, most significant first.  Structural
recursion on a fuel bound keeps the definition kernel-reducible; `natToDigits`
supplies enough fuel for any `n`. -/
def natToDigitsAux : Nat → Nat → List Char
  | 0, _ => []
  | fuel + 1, n =>
      if n < 10 then [digitChar n]
      else natToDigitsAux fuel (n / 10) ++ [digitChar (n % 10)]

/-- Decimal digit characters of `n`, most significant first. -/
def natToDigits (n : Nat) : List Char := natToDigitsAux (n + 1) n

/-- Characters of a Python integer: optional minus sign, then decimal digits. -/
def intToChars (i : Int) : List Char :=
  if i < 0 then '-' :: natToDigits i.natAbs else natToDigits i.natAbs

/-- Lower-case hexadecimal digit character, as `"%04x" % n` produces. -/
def hexChar (n : Nat) : Char :=
  if n < 10 then Char.ofNat (48 + n) else Char.ofNat (87 + n)

/-! ### String escaping

`json.dumps(..., ensure_ascii=False)` escapes exactly `"` and `\` and the
control characters below 0x20; the latter use the short forms
`\b \t \n \f \r` where they exist and `\u00xx` otherwise.  All other
characters pass through verbatim. -/

/-- One character, JSON-escaped the way the Python encoder escapes it. -/
def escapeChar (c : Char) : List Char :=
  if c = '"' then ['\\', '"']
  else if c = '\\' then ['\\', '\\']
  else if 32 ≤ c.toNat then [c]
  else if c.toNat = 8 then ['\\', 'b']
  else if c.toNat = 9 then ['\\', 't']
  else if c.toNat = 10 then ['\\', 'n']
  else if c.toNat = 12 then ['\\', 'f']
  else if c.toNat = 13 then ['\\', 'r']
  else ['\\', 'u', '0', '0', hexChar (c.toNat / 16), hexChar (c.toNat % 16)]

/-- A rendered JSON string: quote, escaped body, quote. -/
def renderStr (s : List Char) : List Char :=
  '"' :: (s.flatMap escapeChar ++ ['"'])

mutual
/-- Characters of a JSON value, as `json.dumps(x, separators=(",", ":"),
ensure_ascii=False)` emits them (compact separators, no whitespace). -/
def renderJson : Json → List Char
  | .null => "null".data
  | .bool true => "true".data
  | .bool false => "false".data
  | .int i => intToChars i
  | .str s => renderStr s
  | .arr [] => ['[', ']']
  | .arr (x :: xs) => '[' :: (renderJson x ++ (renderArrTail xs ++ [']']))
  | .obj [] => ['{', '}']
  | .obj (kv :: kvs) =>
      '{' :: (renderStr kv.1 ++ ':' :: (renderJson kv.2 ++ (renderObjTail kvs ++ ['}'])))

/-- The remaining array items, each preceded by the `,` separator. -/
def renderArrTail : List Json → List Char
  | [] => []
  | x :: xs => ',' :: (renderJson x ++ renderArrTail xs)

/-- The remaining object members, each preceded by the `,` separator. -/
def renderObjTail : List (List Char × Json) → List Char
  | [] => []
  | kv :: kvs => ',' :: (renderStr kv.1 ++ ':' :: (renderJson kv.2 ++ renderObjTail kvs))
end

/-! ### JSON parsing

A recursive-descent parser for the grammar `json.loads` accepts, restricted to
whitespace-free documents (the only documents the encoder above produces; the
surrounding-whitespace tolerance of `json.loads` is irrelevant to the codec).
It is deliberately permissive about leading zeros, which `json.loads` rejects
but the renderer never emits.  The `fuel` argument makes totality structural;
`jsonLoads` supplies more fuel than any input can consume. -/

/-- Is `c` a decimal digit character. -/
def isDigitCh (c : Char) : Bool := 48 ≤ c.toNat && c.toNat ≤ 57

/-- Numeric value of a big-endian digit run. -/
def digitsVal (ds : List Char) : Nat :=
  ds.foldl (fun a c => a * 10 + (c.toNat - 48)) 0

/-- Consume a nonempty digit run and return its value. -/
def parseNat (s : List Char) : Option (Nat × List Char) :=
  match s.takeWhile isDigitCh with
  | [] => none
  | ds => some (digitsVal ds, s.dropWhile isDigitCh)

/-- Consume a JSON integer: optional minus sign, then digits. -/
def parseInt : List Char → Option (Int × List Char)
  | [] => none
  | c :: r =>
      if c = '-' then (parseNat r).map (fun p => (-(p.1 : Int), p.2))
      else (parseNat (c :: r)).map (fun p => ((p.1 : Int), p.2))

/-- Consume an exact literal run of characters. -/
def dropLit : List Char → List Char → Option (List Char)
  | [], s => some s
  | _ :: _, [] => none
  | p :: ps, c :: cs => if c = p then dropLit ps cs else none

/-- Value of a hexadecimal digit character, if it is one. -/
def hexVal (c : Char) : Option Nat :=
  if 48 ≤ c.toNat && c.toNat ≤ 57 then some (c.toNat - 48)
  else if 97 ≤ c.toNat && c.toNat ≤ 102 then some (c.toNat - 87)
  else if 65 ≤ c.toNat && c.toNat ≤ 70 then some (c.toNat - 55)
  else none

/-- The character a single-letter escape denotes, if any. -/
def unescapeCh (e : Char) : Option Char :=
  if e = '"' then some '"'
  else if e = '\\' then some '\\'
  else if e = '/' then some '/'
  else if e = 'b' then some (Char.ofNat 8)
  else if e = 'f' then some (Char.ofNat 12)
  else if e = 'n' then some (Char.ofNat 10)
  else if e = 'r' then some (Char.ofNat 13)
  else if e = 't' then some (Char.ofNat 9)
  else none

/-- Parse a string body after the opening quote, up to the closing quote. -/
def parseStrBody : List Char → Option (List Char × List Char)
  | [] => none
  | c :: r =>
      if c = '"' then some ([], r)
      else if c = '\\' then
        match r with
        | [] => none
        | e :: r2 =>
            if e = 'u' then
              match r2 with
              | h1 :: h2 :: h3 :: h4 :: r3 =>
                  match hexVal h1, hexVal h2, hexVal h3, hexVal h4 with
                  | some a, some b, some c2, some d =>
                      (parseStrBody r3).map
                        (fun p => (Char.ofNat (((a * 16 + b) * 16 + c2) * 16 + d) :: p.1, p.2))
                  | _, _, _, _ => none
              | _ => none
            else
              match unescapeCh e with
              | some ch => (parseStrBody r2).map (fun p => (ch :: p.1, p.2))
              | none => none
      else (parseStrBody r).map (fun p => (c :: p.1, p.2))

mutual
/-- Parse one JSON value.  Dispatch is on the first character, exactly as the
grammar demands: keyword, string, array, object, else number. -/
def parseVal : Nat → List Char → Option (Json × List Char)
  | 0, _ => none
  | _ + 1, [] => none
  | fuel + 1, c :: r =>
      if c = 'n' then (dropLit ['u', 'l', 'l'] r).map (fun r2 => (Json.null, r2))
      else if c = 't' then (dropLit ['r', 'u', 'e'] r).map (fun r2 => (Json.bool true, r2))
      else if c = 'f' then (dropLit ['a', 'l', 's', 'e'] r).map (fun r2 => (Json.bool false, r2))
      else if c = '"' then (parseStrBody r).map (fun p => (Json.str p.1, p.2))
      else if c = '[' then
        match r with
        | [] => none
        | c2 :: r2 =>
            if c2 = ']' then some (Json.arr [], r2)
            else (parseItems fuel (c2 :: r2)).map (fun p => (Json.arr p.1, p.2))
      else if c = '{' then
        match r with
        | [] => none
        | c2 :: r2 =>
            if c2 = '}' then some (Json.obj [], r2)
            else (parseMembers fuel (c2 :: r2)).map (fun p => (Json.obj p.1, p.2))
      else (parseInt (c :: r)).map (fun p => (Json.int p.1, p.2))

/-- Parse one or more comma-separated array items and the closing bracket. -/
def parseItems : Nat → List Char → Option (List Json × List Char)
  | 0, _ => none
  | fuel + 1, s =>
      match parseVal fuel s with
      | none => none
      | some (j, r) =>
          match r with
          | [] => none
          | c :: r2 =>
              if c = ',' then (parseItems fuel r2).map (fun p => (j :: p.1, p.2))
              else if c = ']' then some ([j], r2)
              else none

/-- Parse one or more comma-separated object members and the closing brace. -/
def parseMembers : Nat → List Char → Option (List (List Char × Json) × List Char)
  | 0, _ => none
  | fuel + 1, s =>
      match s with
      | [] => none
      | c :: r =>
          if c = '"' then
            match parseStrBody r with
            | none => none
            | some (k, r1) =>
                match r1 with
                | [] => none
                | c1 :: r2 =>
                    if c1 = ':' then
                      match parseVal fuel r2 with
                      | none => none
                      | some (v, r3) =>
                          match r3 with
                          | [] => none
                          | c2 :: r4 =>
                              if c2 = ',' then
                                (parseMembers fuel r4).map (fun p => ((k, v) :: p.1, p.2))
                              else if c2 = '}' then some ([(k, v)], r4)
                              else none
                    else none
          else none
end

/-- `json.loads` on a whitespace-free document: parse one value and require
that it consumes the whole input; anything else raises `JSONDecodeError`,
which `_read_message` turns into `None`. -/
def jsonLoads (s : List Char) : Option Json :=
  match parseVal (s.length + 1) s with
  | some (j, []) => some j
  | _ => none

/-! ### Round-trip lemmas: digits and numbers -/

/-- The head of the remaining input is not a digit, so a digit run before it
cannot be extended.  Every JSON delimiter and the end of input qualify. -/
def noDigitHead : List Char → Bool
  | [] => true
  | c :: _ => !(isDigitCh c)

/-- A remainder that cannot extend a rendered value: empty, or headed by one of
the three JSON delimiters that may legally follow a value. -/
def delim3 : List Char → Bool
  | [] => true
  | c :: _ => c = ',' || c = ']' || c = '}'

/-! ### UTF-8 codec

`_write_message` encodes the JSON text with `str.encode("utf-8")`;
`_read_message` decodes with `bytes.decode("utf-8")`.  Bytes are `Nat < 256`.
The decoder below accepts a superset of Python (it does not reject overlong
encodings or surrogates), which is irrelevant for inverting the encoder. -/

/-- UTF-8 bytes of one character. -/
def utf8EncodeChar (c : Char) : List Nat :=
  if c.toNat < 128 then [c.toNat]
  else if c.toNat < 2048 then [192 + c.toNat / 64, 128 + c.toNat % 64]
  else if c.toNat < 65536 then
    [224 + c.toNat / 4096, 128 + c.toNat / 64 % 64, 128 + c.toNat % 64]
  else
    [240 + c.toNat / 262144, 128 + c.toNat / 4096 % 64, 128 + c.toNat / 64 % 64,
      128 + c.toNat % 64]

/-- UTF-8 bytes of a string, mirroring `str.encode("utf-8")`. -/
def utf8Encode (s : List Char) : List Nat := s.flatMap utf8EncodeChar

/-- UTF-8 decoding, mirroring `bytes.decode("utf-8")` on encoder output. -/
def utf8Decode : List Nat → Option (List Char)
  | [] => some []
  | b :: r =>
      if b < 128 then (utf8Decode r).map (fun cs => Char.ofNat b :: cs)
      else if b < 192 then none
      else
        match r with
        | [] => none
        | b2 :: r2 =>
            if b < 224 then
              if 128 ≤ b2 ∧ b2 < 192 then
                (utf8Decode r2).map (fun cs => Char.ofNat ((b - 192) * 64 + (b2 - 128)) :: cs)
              else none
            else
              match r2 with
              | [] => none
              | b3 :: r3 =>
                  if b < 240 then
                    if (128 ≤ b2 ∧ b2 < 192) ∧ (128 ≤ b3 ∧ b3 < 192) then
                      (utf8Decode r3).map (fun cs =>
                        Char.ofNat (((b - 224) * 64 + (b2 - 128)) * 64 + (b3 - 128)) :: cs)
                    else none
                  else
                    match r3 with
                    | [] => none
                    | b4 :: r4 =>
                        if b < 248 then
                          if (128 ≤ b2 ∧ b2 < 192) ∧ (128 ≤ b3 ∧ b3 < 192) ∧
                              (128 ≤ b4 ∧ b4 < 192) then
                            (utf8Decode r4).map (fun cs =>
                              Char.ofNat ((((b - 240) * 64 + (b2 - 128)) * 64 + (b3 - 128)) * 64
                                + (b4 - 128)) :: cs)
                          else none
                        else none

/-! ### Frame codec

`MCPClient._write_message` serialises the message, prefixes the 4-byte
big-endian length of the UTF-8 body (`struct.pack(">I", len(data))`, which
raises `struct.error` when the length does not fit 32 bits — modelled as
`none`) and writes both.  `MCPClient._read_message` reads exactly 4 bytes,
unpacks the length, treats a zero length as end of stream, reads exactly
`length` body bytes and parses the JSON; a `json.JSONDecodeError` is caught
and turned into `None`.  `None` from `_read_exact` (short read, reset, end of
stream) also yields `None`. -/

/-- The 4-byte big-endian encoding `struct.pack(">I", n)` produces. -/
def be32 (n : Nat) : List Nat :=
  [n / 16777216 % 256, n / 65536 % 256, n / 256 % 256, n % 256]

/-- The value `struct.unpack(">I", bytes)` reads back (big-endian fold). -/
def unbe32 (p : List Nat) : Nat := p.foldl (fun a b => a * 256 + b) 0

/-- `_read_exact n`: exactly `n` bytes and the remaining stream, or `None`. -/
def readExact (n : Nat) (s : List Nat) : Option (List Nat × List Nat) :=
  if n ≤ s.length then some (s.take n, s.drop n) else none

/-- The byte frame `_write_message` writes for a message, when the body fits
a 32-bit length (`struct.pack` raises otherwise). -/
def encodeFrame (j : Json) : Option (List Nat) :=
  if (utf8Encode (renderJson j)).length < 4294967296 then
    some (be32 (utf8Encode (renderJson j)).length ++ utf8Encode (renderJson j))
  else none

/-- `_read_message`: one frame from the stream; `none` in the first component
mirrors the Python `None` return (end of stream, zero length, short read, or
JSON parse failure — a UTF-8 decode error instead propagates as an exception,
but the reader loop then terminates exactly as it does on `None`, see
`readerLoopAux`).  The second component is the unconsumed stream. -/
def readMessage (s : List Nat) : Option Json × List Nat :=
  match readExact 4 s with
  | none => (none, [])
  | some (p, s1) =>
      if unbe32 p = 0 then (none, s1)
      else
        match readExact (unbe32 p) s1 with
        | none => (none, [])
        | some (body, s2) =>
            match utf8Decode body with
            | none => (none, s2)
            | some chars => (jsonLoads chars, s2)

/-! ### Python `str()` of a JSON value

`_handle_message` looks futures up by `str(reply_to)` while `send_request`
registers them under `str(msg_id)`.  The integer and string cases below are
exact; the container cases follow Python `repr` in shape (bracket, `", "`
separators) with the escaping inside nested string repr elided — registry keys
are always decimal strings, so only the head character of a container repr
(never a digit) can matter to a lookup. -/

mutual
def pyRepr : Json → List Char
  | .null => "None".data
  | .bool true => "True".data
  | .bool false => "False".data
  | .int i => intToChars i
  | .str s => Char.ofNat 39 :: (s ++ [Char.ofNat 39])
  | .arr [] => ['[', ']']
  | .arr (x :: xs) => '[' :: (pyRepr x ++ (pyReprArrTail xs ++ [']']))
  | .obj [] => ['{', '}']
  | .obj (kv :: kvs) =>
      '{' :: (Char.ofNat 39 :: (kv.1 ++ Char.ofNat 39 :: ':' :: ' ' :: (pyRepr kv.2
        ++ (pyReprObjTail kvs ++ ['}']))))

def pyReprArrTail : List Json → List Char
  | [] => []
  | x :: xs => ',' :: ' ' :: (pyRepr x ++ pyReprArrTail xs)

def pyReprObjTail : List (List Char × Json) → List Char
  | [] => []
  | kv :: kvs => ',' :: ' ' :: (Char.ofNat 39 :: (kv.1 ++ Char.ofNat 39 :: ':' :: ' '
      :: (pyRepr kv.2 ++ pyReprObjTail kvs)))
end

/-- Python `str(x)`: the string itself for a `str`, `repr` otherwise. -/
def pyStr (v : Json) : List Char :=
  match v with
  | .str s => s
  | _ => pyRepr v

/-! ### Correlation registry

`self._response_futures : Dict[str, asyncio.Future]` with the four mutations
the client performs: lookup (`dict.get`), assignment, `dict.pop`, and the
fail-everything sweeps in `close` and the reader loop `finally` block.
Dictionaries are ordered association lists (Python assignment replaces the
value in place for an existing key and appends a new key at the end). -/

inductive ErrKind where
  | clientClosed
  | connLost
  | timeoutErr
  | packError
  | canceledErr

/-- The state of one `asyncio.Future`: unresolved, or resolved one of the
three ways a future resolves in this client. -/
inductive FutState where
  | pending
  | value (m : Json)
  | failed (e : ErrKind)
  | canceled

/-- `Future.done()`: anything but pending. -/
def futDone : FutState → Bool
  | .pending => false
  | _ => true

/-- `dict.get`. -/
def getKey {α : Type} : List (List Char × α) → List Char → Option α
  | [], _ => none
  | (k0, v0) :: t, k => if k0 = k then some v0 else getKey t k

/-- `dict[k] = v`: replace in place, or append a new key at the end. -/
def setKey {α : Type} : List (List Char × α) → List Char → α → List (List Char × α)
  | [], k, v => [(k, v)]
  | (k0, v0) :: t, k, v => if k0 = k then (k0, v) :: t else (k0, v0) :: setKey t k v

/-- `dict.pop(k, None)`: drop the entry if present. -/
def delKey {α : Type} : List (List Char × α) → List Char → List (List Char × α)
  | [], _ => []
  | (k0, v0) :: t, k => if k0 = k then t else (k0, v0) :: delKey t k

/-- `dict.setdefault(k, v)`. -/
def setDefaultKey {α : Type} (d : List (List Char × α)) (k : List Char) (v : α) :
    List (List Char × α) :=
  match getKey d k with
  | some _ => d
  | none => d ++ [(k, v)]

abbrev RegState := List (List Char × FutState)

/-- The sweep `for fut in self._response_futures.values(): if not fut.done():
fut.set_exception(...)` used by `close` and by the reader loop on exit. -/
def failAll (e : ErrKind) (reg : RegState) : RegState :=
  reg.map (fun kv => if futDone kv.2 then kv else (kv.1, FutState.failed e))

/-- `msg.get(k)` on a JSON object. -/
def jsonObjGet (m : Json) (k : List Char) : Option Json :=
  match m with
  | .obj ms => getKey ms k
  | _ => none

/-- `MCPClient._handle_message`: if the message carries a non-`None`
`reply_to` and the future looked up under `str(reply_to)` exists and is not
done, fulfil it with the whole message and return; otherwise fall through to
the notification print.  The second component is the key resolved, if any. -/
def isNullJson : Json → Bool
  | Json.null => true
  | _ => false

def handleMessage (reg : RegState) (m : Json) : RegState × Option (List Char) :=
  match jsonObjGet m ("reply_to".data) with
  | some rtv =>
      if isNullJson rtv then (reg, none)
      else
        match getKey reg (pyStr rtv) with
        | some FutState.pending => (setKey reg (pyStr rtv) (FutState.value m), some (pyStr rtv))
        | _ => (reg, none)
  | none => (reg, none)

/-! ### Reader loop

`MCPClient._reader_loop` keeps reading frames while the stream is not at EOF;
a `None` from `_read_message` breaks the loop (this covers end of stream, a
zero-length frame, a short read — and also a JSON parse failure, which
`_read_message` maps to `None` as well); any exception escaping an iteration
(for instance `msg.get` on a non-dict message, or a UTF-8 decode error) ends
the loop through the generic handler.  In every case the `finally` block
fails all still-pending futures with `ConnectionError("Connection lost")`.
The fuel is one more than the stream length, which a loop that consumes at
least one byte per iteration can never exhaust.  The second component lists
the messages dispatched to `_handle_message`, in order. -/
def readerLoopAux : Nat → List Nat → RegState → RegState × List Json
  | 0, _, reg => (failAll ErrKind.connLost reg, [])
  | fuel + 1, s, reg =>
      match readMessage s with
      | (none, _) => (failAll ErrKind.connLost reg, [])
      | (some m, s2) =>
          match m with
          | Json.obj _ =>
              let stepped := handleMessage reg m
              let rest := readerLoopAux fuel s2 stepped.1
              (rest.1, m :: rest.2)
          | _ => (failAll ErrKind.connLost reg, [])

/-- The reader loop run over a complete incoming stream. -/
def readerLoop (s : List Nat) (reg : RegState) : RegState × List Json :=
  readerLoopAux (s.length + 1) s reg

/-! ### Client state and life cycle

The mutable attributes of `MCPClient` that the claims mention.  `readerAtEof`
is `none` when `self._reader is None` and otherwise carries `at_eof()`;
`writerSet` is `self._writer is not None` (never reset to `False`, not even by
`close`).  `connect` is modelled on its success path: the claims under
verification concern what `connect` checks before opening a transport, not
connect-failure propagation. -/

structure ClientState where
  readerAtEof : Option Bool
  writerSet : Bool
  readerTask : Bool
  heartbeatTask : Bool
  closed : Bool
  counter : Nat
  futures : RegState

/-- `MCPClient.connect`: a no-op when a reader exists and is not at EOF;
otherwise open the transport and start the two background tasks.  Note the
method never consults `self._closed`. -/
def connect (s : ClientState) : ClientState :=
  match s.readerAtEof with
  | some false => s
  | _ => { s with readerAtEof := some false, writerSet := true,
                  readerTask := true, heartbeatTask := true }

/-- `MCPClient.close`: set `_closed`, cancel both tasks, tear the transport
down (closing our writer closes the socket, so the paired reader reaches
EOF; the `_writer` attribute itself stays set), and fail every still-pending
future with `ConnectionError("Client closed")`. -/
def close (s : ClientState) : ClientState :=
  { s with closed := true,
           heartbeatTask := false,
           readerTask := false,
           readerAtEof := s.readerAtEof.map (fun _ => true),
           futures := failAll ErrKind.clientClosed s.futures }

/-- `MCPClient._next_msg_id`: increment the counter and return it.  The pair
is (new counter value, returned id). -/
def nextMsgId (c : Nat) : Nat × Nat := (c + 1, c + 1)

/-- The ids handed out by `k` successive `_next_msg_id` calls starting from
counter value `c`. -/
def issuedIds : Nat → Nat → List Nat
  | _, 0 => []
  | c, k + 1 => (nextMsgId c).2 :: issuedIds (nextMsgId c).1 k

/-- How the `await asyncio.wait_for(fut, timeout)` inside `send_request`
comes back: the future was fulfilled with a reply, the future was failed with
an exception, the timer fired first, or the awaiting task itself was
cancelled. -/
inductive AwaitOutcome where
  | fulfilled (m : Json)
  | failedWith (e : ErrKind)
  | timedOut
  | canceledAw

/-- `MCPClient.send_request` over one call, with `oc` standing for what the
concurrent world does to the registered future.  Mirrors the source order:
closed check, connect if no writer, id allocation, message build (`setdefault`
then `msg_id` overwrite on a copy of the payload), future registration under
`str(msg_id)`, frame write, await, and the `finally` pop of the entry.  The
third component lists the frames written (empty exactly when no transport
I/O was attempted). -/
def sendRequest (s0 : ClientState) (payload : List (List Char × Json)) (oc : AwaitOutcome) :
    Except ErrKind Json × ClientState × List (List Nat) :=
  if s0.closed then (Except.error ErrKind.clientClosed, s0, [])
  else
    let s1 := if s0.writerSet then s0 else connect s0
    let msgId := (nextMsgId s1.counter).2
    let s2 := { s1 with counter := (nextMsgId s1.counter).1 }
    let outMsg := Json.obj (setKey (setDefaultKey payload ("type".data) (Json.str "request".data))
        ("msg_id".data) (Json.int msgId))
    let s3 := { s2 with futures := setKey s2.futures (natToDigits msgId) FutState.pending }
    match encodeFrame outMsg with
    | none => (Except.error ErrKind.packError, s3, [])
    | some frame =>
        let s4 := { s3 with futures := delKey s3.futures (natToDigits msgId) }
        match oc with
        | AwaitOutcome.fulfilled m => (Except.ok m, s4, [frame])
        | AwaitOutcome.failedWith e => (Except.error e, s4, [frame])
        | AwaitOutcome.timedOut => (Except.error ErrKind.timeoutErr, s4, [frame])
        | AwaitOutcome.canceledAw => (Except.error ErrKind.canceledErr, s4, [frame])

/-- The heartbeat request body `{"type": "heartbeat"}`. -/
def heartbeatPayload : List (List Char × Json) := [("type".data, Json.str "heartbeat".data)]

/-- One iteration of `MCPClient._heartbeat_loop`: stop when `_closed`;
otherwise sleep, issue a heartbeat through `send_request`, swallow any
`Exception` (`except Exception: pass`), and continue.  `CancelledError` is
not an `Exception`: it escapes to the `except asyncio.CancelledError` at loop
level and ends the loop.  The `Bool` says whether the loop runs another
iteration. -/
def heartbeatStep (s : ClientState) (oc : AwaitOutcome) : Bool × ClientState :=
  if s.closed then (false, s)
  else
    match sendRequest s heartbeatPayload oc with
    | (Except.error ErrKind.canceledErr, s2, _) => (false, s2)
    | (_, s2, _) => (true, s2)

/-! ### The resolution events of one connection

Everything that can resolve or remove a registered future, as atomic steps:
a frame dispatched by the reader (`_handle_message`), a `wait_for` timeout
(which cancels the future and pops the entry in `finally`), the reader loop
exiting (its `finally` sweep), and `close` (its sweep).  The asyncio event
loop interleaves these steps but never preempts inside one, which is what
makes each guard (`fut and not fut.done()`) atomic with its resolution. -/

inductive REvent where
  | reply (m : Json)
  | timeoutFire (k : List Char)
  | readerExit
  | closeCall

/-- Keys of the still-pending entries. -/
def pendingKeys (reg : RegState) : List (List Char) :=
  (reg.filter (fun kv => !futDone kv.2)).map (fun kv => kv.1)

/-- One event: the registry afterwards, and the keys whose future this event
resolved (fulfilled, failed, or cancelled). -/
def stepEv (reg : RegState) : REvent → RegState × List (List Char)
  | REvent.reply m =>
      match handleMessage reg m with
      | (reg2, some k) => (reg2, [k])
      | (reg2, none) => (reg2, [])
  | REvent.timeoutFire k =>
      match getKey reg k with
      | some FutState.pending => (delKey reg k, [k])
      | _ => (delKey reg k, [])
  | REvent.readerExit => (failAll ErrKind.connLost reg, pendingKeys reg)
  | REvent.closeCall => (failAll ErrKind.clientClosed reg, pendingKeys reg)

/-- A whole interleaving: the final registry and every resolution performed,
in order. -/
def runEv (reg : RegState) : List REvent → RegState × List (List Char)
  | [] => (reg, [])
  | e :: es =>
      let p := stepEv reg e
      let q := runEv p.1 es
      (q.1, p.2 ++ q.2)

/-- Occurrences of one key in a resolution trace. -/
def countKey (k : List Char) (l : List (List Char)) : Nat :=
  (l.filter (fun x => x = k)).length

/-- Well-formedness of a Python dict: its keys are distinct. -/
def regKeysNodup (reg : RegState) : Prop := (reg.map (fun kv => kv.1)).Nodup

/-! ### The payload object store

`send_request` receives a caller-owned dict and runs
`payload = dict(payload); payload.setdefault("type", "request");
payload["msg_id"] = msg_id`.  To state that the caller object is not mutated,
dicts live in a store indexed by reference; `dict(payload)` allocates a fresh
reference with the same items, and both mutations hit the fresh reference. -/

abbrev PyDict := List (List Char × Json)

abbrev Store := List PyDict

def storeGet (st : Store) (r : Nat) : PyDict := st.getD r []

def storeSet (st : Store) (r : Nat) (d : PyDict) : Store := st.set r d

/-- Lines 68–71 of `send_request`, on the store: copy, `setdefault`,
`msg_id` assignment; returns the new store and the reference the outgoing
message was built in. -/
def buildOutgoing (st : Store) (r : Nat) (msgId : Nat) : Store × Nat :=
  let st1 := st ++ [storeGet st r]
  let rc := st.length
  let st2 := storeSet st1 rc (setDefaultKey (storeGet st1 rc) ("type".data)
      (Json.str "request".data))
  let st3 := storeSet st2 rc (setKey (storeGet st2 rc) ("msg_id".data) (Json.int msgId))
  (st3, rc)

/-! ### Theorems -/

theorem natToDigitsAux_irrel : ∀ f1 f2 n, n < f1 → n < f2 →
    natToDigitsAux f1 n = natToDigitsAux f2 n := by
  intro f1
  induction f1 with
  | zero => intro f2 n h1 _; omega
  | succ f ih =>
      intro f2 n h1 h2
      cases f2 with
      | zero => omega
      | succ g =>
          simp only [natToDigitsAux]
          by_cases h10 : n < 10
          · simp [h10]
          · have hdiv : n / 10 < n := Nat.div_lt_self (by omega) (by omega)
            simp only [if_neg h10]
            rw [ih g (n / 10) (by omega) (by omega)]

theorem natToDigitsAux_succ (fuel m : Nat) :
    natToDigitsAux (fuel + 1) m =
      if m < 10 then [digitChar m] else natToDigitsAux fuel (m / 10) ++ [digitChar (m % 10)] :=
  rfl

theorem natToDigits_eq (n : Nat) :
    natToDigits n =
      if n < 10 then [digitChar n] else natToDigits (n / 10) ++ [digitChar (n % 10)] := by
  show natToDigitsAux (n + 1) n = _
  rw [natToDigitsAux_succ]
  by_cases h10 : n < 10
  · simp [h10]
  · have hdiv : n / 10 < n := Nat.div_lt_self (by omega) (by omega)
    simp only [if_neg h10]
    show _ = natToDigitsAux (n / 10 + 1) (n / 10) ++ _
    rw [natToDigitsAux_irrel n (n / 10 + 1) (n / 10) (by omega) (by omega)]

theorem digitChar_toNat {k : Nat} (h : k < 10) : (digitChar k).toNat = 48 + k := by
  interval_cases k <;> decide

theorem isDigitCh_digitChar {k : Nat} (h : k < 10) : isDigitCh (digitChar k) = true := by
  interval_cases k <;> decide

theorem natToDigits_ne_nil (n : Nat) : natToDigits n ≠ [] := by
  rw [natToDigits_eq]; split <;> simp

theorem natToDigits_digits (n : Nat) : ∀ c ∈ natToDigits n, isDigitCh c = true := by
  induction n using Nat.strong_induction_on with
  | _ n ih =>
      rw [natToDigits_eq]
      by_cases h10 : n < 10
      · simp only [if_pos h10, List.mem_singleton]
        intro c hc; subst hc; exact isDigitCh_digitChar h10
      · have hdiv : n / 10 < n := Nat.div_lt_self (by omega) (by omega)
        simp only [if_neg h10]
        intro c hc
        rcases List.mem_append.mp hc with h | h
        · exact ih (n / 10) hdiv c h
        · rw [List.mem_singleton] at h; subst h
          exact isDigitCh_digitChar (Nat.mod_lt _ (by omega))

theorem natToDigits_cons (n : Nat) :
    ∃ c t, natToDigits n = c :: t ∧ isDigitCh c = true := by
  match h : natToDigits n with
  | [] => exact absurd h (natToDigits_ne_nil n)
  | c :: t => exact ⟨c, t, rfl, natToDigits_digits n c (h ▸ List.mem_cons_self ..)⟩

theorem digitsVal_append_one (xs : List Char) (c : Char) :
    digitsVal (xs ++ [c]) = digitsVal xs * 10 + (c.toNat - 48) := by
  simp [digitsVal, List.foldl_append]

theorem digitsVal_natToDigits (n : Nat) : digitsVal (natToDigits n) = n := by
  induction n using Nat.strong_induction_on with
  | _ n ih =>
      rw [natToDigits_eq]
      by_cases h10 : n < 10
      · simp only [if_pos h10]
        show digitsVal ([] ++ [digitChar n]) = n
        rw [digitsVal_append_one, digitChar_toNat h10]
        simp [digitsVal]
      · have hdiv : n / 10 < n := Nat.div_lt_self (by omega) (by omega)
        simp only [if_neg h10]
        rw [digitsVal_append_one, ih (n / 10) hdiv, digitChar_toNat (Nat.mod_lt _ (by omega))]
        omega

theorem natToDigits_inj {a b : Nat} (h : natToDigits a = natToDigits b) : a = b := by
  have ha := digitsVal_natToDigits a
  rw [h, digitsVal_natToDigits] at ha
  omega

theorem isDigitCh_ne {c : Char} (h : isDigitCh c = true) :
    c ≠ '-' ∧ c ≠ 'n' ∧ c ≠ 't' ∧ c ≠ 'f' ∧ c ≠ '"' ∧ c ≠ '[' ∧ c ≠ '{' ∧
      c ≠ ']' ∧ c ≠ '}' ∧ c ≠ ',' :=
  ⟨fun h2 => by subst h2; exact absurd h (by decide),
   fun h2 => by subst h2; exact absurd h (by decide),
   fun h2 => by subst h2; exact absurd h (by decide),
   fun h2 => by subst h2; exact absurd h (by decide),
   fun h2 => by subst h2; exact absurd h (by decide),
   fun h2 => by subst h2; exact absurd h (by decide),
   fun h2 => by subst h2; exact absurd h (by decide),
   fun h2 => by subst h2; exact absurd h (by decide),
   fun h2 => by subst h2; exact absurd h (by decide),
   fun h2 => by subst h2; exact absurd h (by decide)⟩

theorem takeWhile_digits_app (ds rest : List Char) (hds : ∀ c ∈ ds, isDigitCh c = true)
    (hrest : noDigitHead rest = true) :
    (ds ++ rest).takeWhile isDigitCh = ds ∧ (ds ++ rest).dropWhile isDigitCh = rest := by
  induction ds with
  | nil =>
      simp only [List.nil_append]
      cases rest with
      | nil => simp
      | cons c t =>
          simp only [noDigitHead, Bool.not_eq_true'] at hrest
          simp [List.takeWhile_cons, List.dropWhile_cons, hrest]
  | cons c t ih =>
      have hc : isDigitCh c = true := hds c (List.mem_cons_self ..)
      have := ih (fun x hx => hds x (List.mem_cons_of_mem _ hx))
      simp [List.takeWhile_cons, List.dropWhile_cons, hc, this.1, this.2]

theorem parseNat_natToDigits (n : Nat) (rest : List Char) (hrest : noDigitHead rest = true) :
    parseNat (natToDigits n ++ rest) = some (n, rest) := by
  obtain ⟨htake, hdrop⟩ := takeWhile_digits_app (natToDigits n) rest (natToDigits_digits n) hrest
  obtain ⟨c, t, hct, _⟩ := natToDigits_cons n
  have hval : digitsVal (natToDigits n) = n := digitsVal_natToDigits n
  rw [hct] at htake hdrop hval
  simp only [parseNat, hct]
  rw [htake, hdrop]
  simp [hval]

theorem parseInt_intToChars (i : Int) (rest : List Char) (hrest : noDigitHead rest = true) :
    parseInt (intToChars i ++ rest) = some (i, rest) := by
  unfold intToChars
  by_cases hi : i < 0
  · simp only [if_pos hi, List.cons_append]
    simp only [parseInt, if_pos rfl]
    rw [parseNat_natToDigits _ _ hrest]
    simp only [Option.map_some']
    have : -((i.natAbs : Nat) : Int) = i := by omega
    rw [this]
    simp
  · obtain ⟨c, t, hct, hdig⟩ := natToDigits_cons i.natAbs
    have hne : ¬(c = '-') := (isDigitCh_ne hdig).1
    simp only [if_neg hi, hct, List.cons_append]
    simp only [parseInt, if_neg hne]
    rw [← List.cons_append, ← hct, parseNat_natToDigits _ _ hrest]
    simp only [Option.map_some']
    have : ((i.natAbs : Nat) : Int) = i := by omega
    rw [this]

/-! ### Round-trip lemmas: strings -/

theorem hexVal_hexChar {k : Nat} (h : k < 16) : hexVal (hexChar k) = some k := by
  interval_cases k <;> decide

theorem ofNat_of_toNat_eq {c : Char} {n : Nat} (h : c.toNat = n) : Char.ofNat n = c := by
  rw [← h, Char.ofNat_toNat]

theorem parseStrBody_quote (r : List Char) : parseStrBody ('"' :: r) = some ([], r) := by
  rw [parseStrBody.eq_def]; simp

theorem parseStrBody_raw (c : Char) (X : List Char) (h1 : ¬c = '"') (h2 : ¬c = '\\') :
    parseStrBody (c :: X) = (parseStrBody X).map (fun p => (c :: p.1, p.2)) := by
  rw [parseStrBody.eq_def]; simp [h1, h2]

theorem parseStrBody_esc (e : Char) (X : List Char) (ch : Char)
    (hu : ¬e = 'u') (hch : unescapeCh e = some ch) :
    parseStrBody ('\\' :: e :: X) = (parseStrBody X).map (fun p => (ch :: p.1, p.2)) := by
  rw [parseStrBody.eq_def]; simp [hu, hch]

theorem parseStrBody_hex (h1 h2 h3 h4 : Char) (X : List Char) (a b c2 d : Nat)
    (ha : hexVal h1 = some a) (hb : hexVal h2 = some b)
    (hc : hexVal h3 = some c2) (hd : hexVal h4 = some d) :
    parseStrBody ('\\' :: 'u' :: h1 :: h2 :: h3 :: h4 :: X)
      = (parseStrBody X).map
          (fun p => (Char.ofNat (((a * 16 + b) * 16 + c2) * 16 + d) :: p.1, p.2)) := by
  rw [parseStrBody.eq_def]; simp [ha, hb, hc, hd]

theorem parseStrBody_escape : ∀ (s rest : List Char),
    parseStrBody (s.flatMap escapeChar ++ '"' :: rest) = some (s, rest)
  | [], rest => by simpa using parseStrBody_quote rest
  | c :: s, rest => by
      have ih := parseStrBody_escape s rest
      rw [List.flatMap_cons, List.append_assoc]
      by_cases h1 : c = '"'
      · subst h1
        rw [show escapeChar '"' = ['\\', '"'] from rfl]
        rw [List.cons_append, List.cons_append, List.nil_append,
          parseStrBody_esc '"' _ '"' (by decide) (by decide), ih]
        simp
      · by_cases h2 : c = '\\'
        · subst h2
          rw [show escapeChar '\\' = ['\\', '\\'] from rfl]
          rw [List.cons_append, List.cons_append, List.nil_append,
            parseStrBody_esc '\\' _ '\\' (by decide) (by decide), ih]
          simp
        · by_cases h3 : 32 ≤ c.toNat
          · have he : escapeChar c = [c] := by simp [escapeChar, h1, h2, h3]
            rw [he, List.cons_append, List.nil_append, parseStrBody_raw c _ h1 h2, ih]
            simp
          · by_cases h8 : c.toNat = 8
            · have he : escapeChar c = ['\\', 'b'] := by simp [escapeChar, h1, h2, h3, h8]
              rw [he, List.cons_append, List.cons_append, List.nil_append,
                parseStrBody_esc 'b' _ (Char.ofNat 8) (by decide) (by decide), ih]
              simp
              exact ofNat_of_toNat_eq h8
            · by_cases h9 : c.toNat = 9
              · have he : escapeChar c = ['\\', 't'] := by
                  simp [escapeChar, h1, h2, h3, h8, h9]
                rw [he, List.cons_append, List.cons_append, List.nil_append,
                  parseStrBody_esc 't' _ (Char.ofNat 9) (by decide) (by decide), ih]
                simp
                exact ofNat_of_toNat_eq h9
              · by_cases h10 : c.toNat = 10
                · have he : escapeChar c = ['\\', 'n'] := by
                    simp [escapeChar, h1, h2, h3, h8, h9, h10]
                  rw [he, List.cons_append, List.cons_append, List.nil_append,
                    parseStrBody_esc 'n' _ (Char.ofNat 10) (by decide) (by decide), ih]
                  simp
                  exact ofNat_of_toNat_eq h10
                · by_cases h12 : c.toNat = 12
                  · have he : escapeChar c = ['\\', 'f'] := by
                      simp [escapeChar, h1, h2, h3, h8, h9, h10, h12]
                    rw [he, List.cons_append, List.cons_append, List.nil_append,
                      parseStrBody_esc 'f' _ (Char.ofNat 12) (by decide) (by decide), ih]
                    simp
                    exact ofNat_of_toNat_eq h12
                  · by_cases h13 : c.toNat = 13
                    · have he : escapeChar c = ['\\', 'r'] := by
                        simp [escapeChar, h1, h2, h3, h8, h9, h10, h12, h13]
                      rw [he, List.cons_append, List.cons_append, List.nil_append,
                        parseStrBody_esc 'r' _ (Char.ofNat 13) (by decide) (by decide), ih]
                      simp
                      exact ofNat_of_toNat_eq h13
                    · have he : escapeChar c =
                          ['\\', 'u', '0', '0', hexChar (c.toNat / 16), hexChar (c.toNat % 16)] := by
                        simp [escapeChar, h1, h2, h3, h8, h9, h10, h12, h13]
                      have hhi : hexVal (hexChar (c.toNat / 16)) = some (c.toNat / 16) :=
                        hexVal_hexChar (by omega)
                      have hlo : hexVal (hexChar (c.toNat % 16)) = some (c.toNat % 16) :=
                        hexVal_hexChar (Nat.mod_lt _ (by omega))
                      rw [he]
                      simp only [List.cons_append, List.nil_append]
                      rw [parseStrBody_hex _ _ _ _ _ 0 0 (c.toNat / 16) (c.toNat % 16)
                        (by decide) (by decide) hhi hlo, ih]
                      simp
                      rw [show c.toNat / 16 * 16 + c.toNat % 16 = c.toNat from by omega]
                      exact Char.ofNat_toNat c

/-! ### Round-trip: the parser inverts the renderer -/

theorem parseVal_kwN (f : Nat) (r : List Char) :
    parseVal (f + 1) ('n' :: r) = (dropLit ['u', 'l', 'l'] r).map (fun r2 => (Json.null, r2)) := by
  rw [parseVal.eq_def]; simp

theorem parseVal_kwT (f : Nat) (r : List Char) :
    parseVal (f + 1) ('t' :: r)
      = (dropLit ['r', 'u', 'e'] r).map (fun r2 => (Json.bool true, r2)) := by
  rw [parseVal.eq_def]; simp

theorem parseVal_kwF (f : Nat) (r : List Char) :
    parseVal (f + 1) ('f' :: r)
      = (dropLit ['a', 'l', 's', 'e'] r).map (fun r2 => (Json.bool false, r2)) := by
  rw [parseVal.eq_def]; simp

theorem parseVal_quote (f : Nat) (r : List Char) :
    parseVal (f + 1) ('"' :: r) = (parseStrBody r).map (fun p => (Json.str p.1, p.2)) := by
  rw [parseVal.eq_def]; simp

theorem parseVal_arrEmpty (f : Nat) (r2 : List Char) :
    parseVal (f + 1) ('[' :: ']' :: r2) = some (Json.arr [], r2) := by
  rw [parseVal.eq_def]; simp

theorem parseVal_arrNE (f : Nat) (c2 : Char) (r2 : List Char) (h : ¬c2 = ']') :
    parseVal (f + 1) ('[' :: c2 :: r2)
      = (parseItems f (c2 :: r2)).map (fun p => (Json.arr p.1, p.2)) := by
  rw [parseVal.eq_def]; simp [h]

theorem parseVal_objEmpty (f : Nat) (r2 : List Char) :
    parseVal (f + 1) ('{' :: '}' :: r2) = some (Json.obj [], r2) := by
  rw [parseVal.eq_def]; simp

theorem parseVal_objNE (f : Nat) (c2 : Char) (r2 : List Char) (h : ¬c2 = '}') :
    parseVal (f + 1) ('{' :: c2 :: r2)
      = (parseMembers f (c2 :: r2)).map (fun p => (Json.obj p.1, p.2)) := by
  rw [parseVal.eq_def]; simp [h]

theorem parseVal_num (f : Nat) (c : Char) (r : List Char)
    (hn : ¬c = 'n') (ht : ¬c = 't') (hf : ¬c = 'f') (hq : ¬c = '"')
    (hk : ¬c = '[') (hb : ¬c = '{') :
    parseVal (f + 1) (c :: r) = (parseInt (c :: r)).map (fun p => (Json.int p.1, p.2)) := by
  rw [parseVal.eq_def]; simp [hn, ht, hf, hq, hk, hb]

theorem parseItems_step (f : Nat) (s : List Char) :
    parseItems (f + 1) s =
      match parseVal f s with
      | none => none
      | some (j, r) =>
          match r with
          | [] => none
          | c :: r2 =>
              if c = ',' then (parseItems f r2).map (fun p => (j :: p.1, p.2))
              else if c = ']' then some ([j], r2)
              else none := by
  rw [parseItems.eq_def]

theorem parseMembers_step (f : Nat) (s : List Char) :
    parseMembers (f + 1) s =
      match s with
      | [] => none
      | c :: r =>
          if c = '"' then
            match parseStrBody r with
            | none => none
            | some (k, r1) =>
                match r1 with
                | [] => none
                | c1 :: r2 =>
                    if c1 = ':' then
                      match parseVal f r2 with
                      | none => none
                      | some (v, r3) =>
                          match r3 with
                          | [] => none
                          | c2 :: r4 =>
                              if c2 = ',' then
                                (parseMembers f r4).map (fun p => ((k, v) :: p.1, p.2))
                              else if c2 = '}' then some ([(k, v)], r4)
                              else none
                    else none
          else none := by
  rw [parseMembers.eq_def]

theorem delim3_noDigit {rest : List Char} (h : delim3 rest = true) :
    noDigitHead rest = true := by
  cases rest with
  | nil => rfl
  | cons c t =>
      simp only [delim3, Bool.or_eq_true, decide_eq_true_eq] at h
      rcases h with (h | h) | h <;> subst h <;> rfl

theorem intToChars_head (i : Int) :
    ∃ c t, intToChars i = c :: t ∧ ¬c = 'n' ∧ ¬c = 't' ∧ ¬c = 'f' ∧ ¬c = '"' ∧
      ¬c = '[' ∧ ¬c = '{' ∧ ¬c = ']' ∧ ¬c = '}' := by
  unfold intToChars
  by_cases hi : i < 0
  · exact ⟨'-', _, by rw [if_pos hi], by decide, by decide, by decide, by decide,
      by decide, by decide, by decide, by decide⟩
  · obtain ⟨c, t, hct, hdig⟩ := natToDigits_cons i.natAbs
    obtain ⟨_, hn, ht, hf, hq, hk, hb, hrb, hcb, _⟩ := isDigitCh_ne hdig
    exact ⟨c, t, by rw [if_neg hi, hct], hn, ht, hf, hq, hk, hb, hrb, hcb⟩

theorem renderJson_head (j : Json) :
    ∃ c t, renderJson j = c :: t ∧ ¬c = ']' ∧ ¬c = '}' := by
  cases j with
  | null => exact ⟨'n', _, rfl, by decide, by decide⟩
  | bool b => cases b with
      | true => exact ⟨'t', _, rfl, by decide, by decide⟩
      | false => exact ⟨'f', _, rfl, by decide, by decide⟩
  | int i =>
      obtain ⟨c, t, hct, _, _, _, _, _, _, hrb, hcb⟩ := intToChars_head i
      exact ⟨c, t, hct, hrb, hcb⟩
  | str s => exact ⟨'"', _, rfl, by decide, by decide⟩
  | arr items => cases items with
      | nil => exact ⟨'[', _, rfl, by decide, by decide⟩
      | cons x xs => exact ⟨'[', _, rfl, by decide, by decide⟩
  | obj members => cases members with
      | nil => exact ⟨'{', _, rfl, by decide, by decide⟩
      | cons kv kvs => exact ⟨'{', _, rfl, by decide, by decide⟩

theorem renderJson_length_pos (j : Json) : 0 < (renderJson j).length := by
  obtain ⟨c, t, hct, _, _⟩ := renderJson_head j
  simp [hct]

theorem delim3_arrTail (xs : List Json) (rest : List Char) :
    delim3 (renderArrTail xs ++ ']' :: rest) = true := by
  cases xs with
  | nil => rfl
  | cons x2 xs2 => rfl

theorem delim3_objTail (ms : List (List Char × Json)) (rest : List Char) :
    delim3 (renderObjTail ms ++ '}' :: rest) = true := by
  cases ms with
  | nil => rfl
  | cons kv ms2 => rfl

mutual
theorem rt_val : ∀ (j : Json) (fuel : Nat) (rest : List Char),
    (renderJson j).length < fuel → delim3 rest = true →
    parseVal fuel (renderJson j ++ rest) = some (j, rest)
  | .null, fuel, rest, hf, _ => by
      cases fuel with
      | zero => omega
      | succ f =>
          show parseVal (f + 1) ('n' :: 'u' :: 'l' :: 'l' :: rest) = _
          rw [parseVal_kwN, show dropLit ['u', 'l', 'l'] ('u' :: 'l' :: 'l' :: rest)
            = some rest from rfl]
          simp
  | .bool true, fuel, rest, hf, _ => by
      cases fuel with
      | zero => omega
      | succ f =>
          show parseVal (f + 1) ('t' :: 'r' :: 'u' :: 'e' :: rest) = _
          rw [parseVal_kwT, show dropLit ['r', 'u', 'e'] ('r' :: 'u' :: 'e' :: rest)
            = some rest from rfl]
          simp
  | .bool false, fuel, rest, hf, _ => by
      cases fuel with
      | zero => omega
      | succ f =>
          show parseVal (f + 1) ('f' :: 'a' :: 'l' :: 's' :: 'e' :: rest) = _
          rw [parseVal_kwF, show dropLit ['a', 'l', 's', 'e'] ('a' :: 'l' :: 's' :: 'e' :: rest)
            = some rest from rfl]
          simp
  | .int i, fuel, rest, hf, hrest => by
      cases fuel with
      | zero => omega
      | succ f =>
          obtain ⟨c, t, hct, hn, ht, hfc, hq, hk, hb, _, _⟩ := intToChars_head i
          show parseVal (f + 1) (intToChars i ++ rest) = _
          rw [hct, List.cons_append, parseVal_num f c _ hn ht hfc hq hk hb,
            ← List.cons_append, ← hct, parseInt_intToChars i rest (delim3_noDigit hrest)]
          simp
  | .str s, fuel, rest, hf, _ => by
      cases fuel with
      | zero => omega
      | succ f =>
          show parseVal (f + 1) ('"' :: (s.flatMap escapeChar ++ ['"']) ++ rest) = _
          rw [List.cons_append, List.append_assoc, List.singleton_append,
            parseVal_quote, parseStrBody_escape]
          simp
  | .arr [], fuel, rest, hf, _ => by
      cases fuel with
      | zero => omega
      | succ f =>
          show parseVal (f + 1) ('[' :: ']' :: rest) = _
          exact parseVal_arrEmpty f rest
  | .arr (x :: xs), fuel, rest, hf, hrest => by
      cases fuel with
      | zero => omega
      | succ f =>
          obtain ⟨c2, t2, hct2, hbr, _⟩ := renderJson_head x
          have hlen : (renderJson (Json.arr (x :: xs))).length
              = 2 + (renderJson x).length + (renderArrTail xs).length := by
            show ('[' :: (renderJson x ++ (renderArrTail xs ++ [']']))).length = _
            simp [List.length_append]
            omega
          have hsplit := List.length_append (renderJson x) (renderArrTail xs)
          have key : parseItems f (renderJson x ++ (renderArrTail xs ++ ']' :: rest))
              = some (x :: xs, rest) := rt_items x xs f rest (by omega)
          have harg : renderJson (Json.arr (x :: xs)) ++ rest
              = '[' :: c2 :: (t2 ++ (renderArrTail xs ++ ']' :: rest)) := by
            show ('[' :: (renderJson x ++ (renderArrTail xs ++ [']']))) ++ rest = _
            rw [hct2]
            simp [List.append_assoc]
          have hback : c2 :: (t2 ++ (renderArrTail xs ++ ']' :: rest))
              = renderJson x ++ (renderArrTail xs ++ ']' :: rest) := by
            rw [hct2]
            simp
          rw [harg, parseVal_arrNE f c2 _ hbr, hback, key]
          simp
  | .obj [], fuel, rest, hf, _ => by
      cases fuel with
      | zero => omega
      | succ f =>
          show parseVal (f + 1) ('{' :: '}' :: rest) = _
          exact parseVal_objEmpty f rest
  | .obj ((k, v) :: ms), fuel, rest, hf, hrest => by
      cases fuel with
      | zero => omega
      | succ f =>
          have hlen : (renderJson (Json.obj ((k, v) :: ms))).length
              = 2 + (renderStr k ++ ':' :: (renderJson v ++ renderObjTail ms)).length := by
            show ('{' :: (renderStr k ++ ':' :: (renderJson v ++ (renderObjTail ms ++ ['}'])))).length
              = _
            simp [List.length_append]
            omega
          have key : parseMembers f
              (renderStr k ++ ':' :: (renderJson v ++ (renderObjTail ms ++ '}' :: rest)))
              = some ((k, v) :: ms, rest) := rt_members k v ms f rest (by omega)
          show parseVal (f + 1)
              ('{' :: (renderStr k ++ ':' :: (renderJson v ++ (renderObjTail ms ++ ['}']))) ++ rest)
              = _
          rw [List.cons_append, show
              (renderStr k ++ ':' :: (renderJson v ++ (renderObjTail ms ++ ['}']))) ++ rest
              = renderStr k ++ ':' :: (renderJson v ++ (renderObjTail ms ++ '}' :: rest)) from by
            simp [List.append_assoc]]
          rw [show renderStr k ++ ':' :: (renderJson v ++ (renderObjTail ms ++ '}' :: rest))
              = '"' :: ((k.flatMap escapeChar ++ ['"'])
                  ++ ':' :: (renderJson v ++ (renderObjTail ms ++ '}' :: rest))) from by
            simp [renderStr]]
          rw [parseVal_objNE f '"' _ (by decide)]
          rw [show '"' :: ((k.flatMap escapeChar ++ ['"'])
                  ++ ':' :: (renderJson v ++ (renderObjTail ms ++ '}' :: rest)))
              = renderStr k ++ ':' :: (renderJson v ++ (renderObjTail ms ++ '}' :: rest)) from by
            simp [renderStr]]
          rw [key]
          simp
termination_by j _ _ _ _ => sizeOf j

theorem rt_items : ∀ (x : Json) (xs : List Json) (fuel : Nat) (rest : List Char),
    (renderJson x ++ renderArrTail xs).length + 1 < fuel →
    parseItems fuel (renderJson x ++ (renderArrTail xs ++ ']' :: rest)) = some (x :: xs, rest)
  | x, [], fuel, rest, hf => by
      cases fuel with
      | zero => omega
      | succ f =>
          have hxlen : (renderJson x).length < f := by
            simp only [List.length_append] at hf
            omega
          have hv : parseVal f (renderJson x ++ (renderArrTail [] ++ ']' :: rest))
              = some (x, renderArrTail [] ++ ']' :: rest) :=
            rt_val x f (renderArrTail [] ++ ']' :: rest) hxlen (delim3_arrTail [] rest)
          rw [parseItems_step, hv]
          simp [renderArrTail]
  | x, x2 :: xs2, fuel, rest, hf => by
      cases fuel with
      | zero => omega
      | succ f =>
          have hxlen : (renderJson x).length < f := by
            simp only [List.length_append] at hf
            omega
          have hv : parseVal f (renderJson x ++ (renderArrTail (x2 :: xs2) ++ ']' :: rest))
              = some (x, renderArrTail (x2 :: xs2) ++ ']' :: rest) :=
            rt_val x f (renderArrTail (x2 :: xs2) ++ ']' :: rest) hxlen
              (delim3_arrTail (x2 :: xs2) rest)
          rw [parseItems_step, hv]
          have hx1 : 0 < (renderJson x).length := renderJson_length_pos x
          have hrec : parseItems f (renderJson x2 ++ (renderArrTail xs2 ++ ']' :: rest))
              = some (x2 :: xs2, rest) :=
            rt_items x2 xs2 f rest (by
              simp only [renderArrTail, List.length_append, List.length_cons] at hf ⊢
              omega)
          show (match (',' :: (renderJson x2 ++ renderArrTail xs2)) ++ ']' :: rest with
            | [] => none
            | c :: r2 =>
                if c = ',' then (parseItems f r2).map (fun p => (x :: p.1, p.2))
                else if c = ']' then some ([x], r2)
                else none) = some (x :: x2 :: xs2, rest)
          rw [List.cons_append]
          simp only [reduceIte]
          rw [List.append_assoc, hrec]
          simp
termination_by x xs _ _ _ => sizeOf x + sizeOf xs + 1

theorem rt_members : ∀ (k : List Char) (v : Json) (ms : List (List Char × Json))
    (fuel : Nat) (rest : List Char),
    (renderStr k ++ ':' :: (renderJson v ++ renderObjTail ms)).length + 1 < fuel →
    parseMembers fuel (renderStr k ++ ':' :: (renderJson v ++ (renderObjTail ms ++ '}' :: rest)))
      = some ((k, v) :: ms, rest)
  | k, v, [], fuel, rest, hf => by
      cases fuel with
      | zero => omega
      | succ f =>
          have hvlen : (renderJson v).length < f := by
            simp only [renderStr, List.length_append, List.length_cons] at hf
            omega
          have hv : parseVal f (renderJson v ++ (renderObjTail [] ++ '}' :: rest))
              = some (v, renderObjTail [] ++ '}' :: rest) :=
            rt_val v f (renderObjTail [] ++ '}' :: rest) hvlen (delim3_objTail [] rest)
          rw [show renderStr k ++ ':' :: (renderJson v ++ (renderObjTail [] ++ '}' :: rest))
              = '"' :: (k.flatMap escapeChar
                  ++ '"' :: (':' :: (renderJson v ++ (renderObjTail [] ++ '}' :: rest)))) from by
            simp [renderStr]]
          rw [parseMembers_step]
          simp only [reduceIte]
          rw [parseStrBody_escape]
          simp only [reduceIte]
          rw [hv]
          simp [renderObjTail]
  | k, v, (k2, v2) :: ms2, fuel, rest, hf => by
      cases fuel with
      | zero => omega
      | succ f =>
          have hvlen : (renderJson v).length < f := by
            simp only [renderStr, List.length_append, List.length_cons] at hf
            omega
          have hv : parseVal f (renderJson v ++ (renderObjTail ((k2, v2) :: ms2) ++ '}' :: rest))
              = some (v, renderObjTail ((k2, v2) :: ms2) ++ '}' :: rest) :=
            rt_val v f (renderObjTail ((k2, v2) :: ms2) ++ '}' :: rest) hvlen
              (delim3_objTail ((k2, v2) :: ms2) rest)
          rw [show renderStr k
                  ++ ':' :: (renderJson v ++ (renderObjTail ((k2, v2) :: ms2) ++ '}' :: rest))
              = '"' :: (k.flatMap escapeChar
                  ++ '"' :: (':' :: (renderJson v
                      ++ (renderObjTail ((k2, v2) :: ms2) ++ '}' :: rest)))) from by
            simp [renderStr]]
          rw [parseMembers_step]
          simp only [reduceIte]
          rw [parseStrBody_escape]
          simp only [reduceIte]
          rw [hv]
          have hrec : parseMembers f
              (renderStr k2 ++ ':' :: (renderJson v2 ++ (renderObjTail ms2 ++ '}' :: rest)))
              = some ((k2, v2) :: ms2, rest) :=
            rt_members k2 v2 ms2 f rest (by
              simp only [renderObjTail, renderStr, List.length_append, List.length_cons] at hf ⊢
              omega)
          show (match (',' :: (renderStr k2 ++ ':' :: (renderJson v2 ++ renderObjTail ms2)))
                ++ '}' :: rest with
            | [] => none
            | c2 :: r4 =>
                if c2 = ',' then (parseMembers f r4).map (fun p => ((k, v) :: p.1, p.2))
                else if c2 = '}' then some ([(k, v)], r4)
                else none) = some ((k, v) :: (k2, v2) :: ms2, rest)
          rw [List.cons_append]
          simp only [reduceIte]
          rw [show (renderStr k2 ++ ':' :: (renderJson v2 ++ renderObjTail ms2)) ++ '}' :: rest
              = renderStr k2 ++ ':' :: (renderJson v2 ++ (renderObjTail ms2 ++ '}' :: rest))
            from by simp [List.append_assoc]]
          rw [hrec]
          simp
termination_by k v ms _ _ _ => sizeOf v + sizeOf ms + 1
end

/-- The codec round trip at the JSON layer. -/
theorem jsonLoads_renderJson (j : Json) : jsonLoads (renderJson j) = some j := by
  have h := rt_val j ((renderJson j).length + 1) [] (by omega) rfl
  rw [List.append_nil] at h
  simp [jsonLoads, h]

theorem char_toNat_lt (c : Char) : c.toNat < 1114112 := by
  have hval : c.toNat = c.val.toNat := rfl
  rcases c.valid with h | h
  · omega
  · omega

theorem utf8EncodeChar_ne_nil (c : Char) : utf8EncodeChar c ≠ [] := by
  unfold utf8EncodeChar
  split
  · simp
  · split
    · simp
    · split <;> simp

theorem utf8Decode_encodeChar (c : Char) (r : List Nat) (cs : List Char)
    (h : utf8Decode r = some cs) :
    utf8Decode (utf8EncodeChar c ++ r) = some (c :: cs) := by
  have hv := char_toNat_lt c
  unfold utf8EncodeChar
  by_cases h1 : c.toNat < 128
  · simp only [if_pos h1, List.cons_append, List.nil_append]
    rw [utf8Decode.eq_def]
    dsimp only
    rw [if_pos h1, h]
    simp [Char.ofNat_toNat]
  · by_cases h2 : c.toNat < 2048
    · simp only [if_neg h1, if_pos h2, List.cons_append, List.nil_append]
      rw [utf8Decode.eq_def]
      dsimp only
      rw [if_neg (by omega), if_neg (by omega), if_pos (by omega),
        if_pos (by constructor <;> omega)]
      rw [show (192 + c.toNat / 64 - 192) * 64 + (128 + c.toNat % 64 - 128) = c.toNat from by
        omega]
      rw [h]
      simp [Char.ofNat_toNat]
    · by_cases h3 : c.toNat < 65536
      · simp only [if_neg h1, if_neg h2, if_pos h3, List.cons_append, List.nil_append]
        rw [utf8Decode.eq_def]
        dsimp only
        rw [if_neg (by omega), if_neg (by omega), if_neg (by omega), if_pos (by omega),
          if_pos (by refine ⟨⟨?_, ?_⟩, ?_, ?_⟩ <;> omega)]
        rw [show ((224 + c.toNat / 4096 - 224) * 64 + (128 + c.toNat / 64 % 64 - 128)) * 64
            + (128 + c.toNat % 64 - 128) = c.toNat from by omega]
        rw [h]
        simp [Char.ofNat_toNat]
      · simp only [if_neg h1, if_neg h2, if_neg h3, List.cons_append, List.nil_append]
        rw [utf8Decode.eq_def]
        dsimp only
        rw [if_neg (by omega), if_neg (by omega), if_neg (by omega), if_neg (by omega),
          if_pos (by omega), if_pos (by refine ⟨⟨?_, ?_⟩, ⟨?_, ?_⟩, ?_, ?_⟩ <;> omega)]
        rw [show (((240 + c.toNat / 262144 - 240) * 64 + (128 + c.toNat / 4096 % 64 - 128)) * 64
            + (128 + c.toNat / 64 % 64 - 128)) * 64 + (128 + c.toNat % 64 - 128)
            = c.toNat from by omega]
        rw [h]
        simp [Char.ofNat_toNat]

theorem utf8Decode_utf8Encode (s : List Char) : utf8Decode (utf8Encode s) = some s := by
  induction s with
  | nil => rfl
  | cons c t ih =>
      show utf8Decode (utf8EncodeChar c ++ t.flatMap utf8EncodeChar) = some (c :: t)
      exact utf8Decode_encodeChar c _ t ih

theorem utf8Encode_ne_nil {s : List Char} (h : s ≠ []) : utf8Encode s ≠ [] := by
  cases s with
  | nil => exact absurd rfl h
  | cons c t =>
      show utf8EncodeChar c ++ t.flatMap utf8EncodeChar ≠ []
      simp [utf8EncodeChar_ne_nil c]

theorem unbe32_be32 {n : Nat} (h : n < 4294967296) : unbe32 (be32 n) = n := by
  simp only [be32, unbe32, List.foldl_cons, List.foldl_nil]
  omega

theorem readExact_append_left (a b : List Nat) : readExact a.length (a ++ b) = some (a, b) := by
  simp [readExact, List.take_left, List.drop_left]

/-- C4: codec round trip at the byte level: reading back a written frame
(4-byte big-endian length prefix, then the UTF-8 JSON body) yields a message
equal to the one encoded and leaves the rest of the stream untouched. -/
theorem readMessage_encodeFrame (j : Json) (bs rest : List Nat)
    (h : encodeFrame j = some bs) :
    readMessage (bs ++ rest) = (some j, rest) := by
  unfold encodeFrame at h
  by_cases hlen : (utf8Encode (renderJson j)).length < 4294967296
  · rw [if_pos hlen] at h
    obtain rfl : be32 (utf8Encode (renderJson j)).length ++ utf8Encode (renderJson j) = bs :=
      by injection h
    have hb : (be32 (utf8Encode (renderJson j)).length).length = 4 := rfl
    have hne : utf8Encode (renderJson j) ≠ [] := by
      obtain ⟨c, t, hct, _, _⟩ := renderJson_head j
      exact utf8Encode_ne_nil (by rw [hct]; simp)
    have hpos : (utf8Encode (renderJson j)).length ≠ 0 := by
      simpa using hne
    have hread4 : readExact 4 (be32 (utf8Encode (renderJson j)).length
        ++ (utf8Encode (renderJson j) ++ rest))
      = some (be32 (utf8Encode (renderJson j)).length, utf8Encode (renderJson j) ++ rest) := by
      rw [← hb]; exact readExact_append_left _ _
    unfold readMessage
    rw [List.append_assoc, hread4]
    dsimp only
    rw [unbe32_be32 hlen, if_neg hpos, readExact_append_left]
    dsimp only
    rw [utf8Decode_utf8Encode]
    dsimp only
    rw [jsonLoads_renderJson]
  · rw [if_neg hlen] at h
    exact absurd h (by simp)

/-! ### Association-list lemmas -/

theorem getKey_setKey {α : Type} (d : List (List Char × α)) (k : List Char) (v : α) :
    getKey (setKey d k v) k = some v := by
  induction d with
  | nil => simp [setKey, getKey]
  | cons kv t ih =>
      by_cases h : kv.1 = k
      · simp [setKey, getKey, h]
      · simp [setKey, getKey, h, ih]

theorem getKey_setKey_ne {α : Type} (d : List (List Char × α)) (k k2 : List Char) (v : α)
    (h : ¬k2 = k) : getKey (setKey d k v) k2 = getKey d k2 := by
  have h' : ¬k = k2 := fun h2 => h h2.symm
  induction d with
  | nil => simp [setKey, getKey, h']
  | cons kv t ih =>
      by_cases h1 : kv.1 = k
      · subst h1
        simp [setKey, getKey, h']
      · by_cases h2 : kv.1 = k2
        · simp [setKey, getKey, h1, h2, h]
        · simp [setKey, getKey, h1, h2, ih]

theorem getKey_delKey_ne {α : Type} (d : List (List Char × α)) (k k2 : List Char)
    (h : ¬k2 = k) : getKey (delKey d k) k2 = getKey d k2 := by
  induction d with
  | nil => simp [delKey]
  | cons kv t ih =>
      by_cases h1 : kv.1 = k
      · subst h1
        have h' : ¬kv.1 = k2 := fun h2 => h h2.symm
        simp [delKey, getKey, h']
      · by_cases h2 : kv.1 = k2
        · simp [delKey, getKey, h1, h2, h]
        · simp [delKey, getKey, h1, h2, ih]

theorem getKey_none_of_not_mem {α : Type} (d : List (List Char × α)) (k : List Char)
    (h : k ∉ d.map (fun kv => kv.1)) : getKey d k = none := by
  induction d with
  | nil => rfl
  | cons kv t ih =>
      simp only [List.map_cons, List.mem_cons] at h
      push_neg at h
      have h' : ¬kv.1 = k := fun h2 => h.1 h2.symm
      simp [getKey, h', ih h.2]

theorem getKey_delKey_self (d : List (List Char × α)) (k : List Char)
    (h : (d.map (fun kv => kv.1)).Nodup) : getKey (delKey d k) k = none := by
  induction d with
  | nil => rfl
  | cons kv t ih =>
      simp only [List.map_cons, List.nodup_cons] at h
      by_cases h1 : kv.1 = k
      · subst h1
        simp only [delKey, if_pos rfl]
        exact getKey_none_of_not_mem t kv.1 h.1
      · simp [delKey, getKey, h1, ih h.2]

theorem delKey_setKey_fresh {α : Type} (d : List (List Char × α)) (k : List Char) (v : α)
    (h : getKey d k = none) : delKey (setKey d k v) k = d := by
  induction d with
  | nil => simp [setKey, delKey]
  | cons kv t ih =>
      by_cases h1 : kv.1 = k
      · simp [getKey, h1] at h
      · simp only [getKey, if_neg h1] at h
        simp [setKey, delKey, h1, ih h]

theorem keys_setKey_present {α : Type} (d : List (List Char × α)) (k : List Char) (v f : α)
    (h : getKey d k = some f) :
    (setKey d k v).map (fun kv => kv.1) = d.map (fun kv => kv.1) := by
  induction d with
  | nil => simp [getKey] at h
  | cons kv t ih =>
      by_cases h1 : kv.1 = k
      · simp [setKey, h1]
      · simp only [getKey, if_neg h1] at h
        simp [setKey, h1, ih h]

theorem keys_delKey_sublist {α : Type} (d : List (List Char × α)) (k : List Char) :
    ((delKey d k).map (fun kv => kv.1)).Sublist (d.map (fun kv => kv.1)) := by
  induction d with
  | nil => simp [delKey]
  | cons kv t ih =>
      by_cases h1 : kv.1 = k
      · simp only [delKey, if_pos h1, List.map_cons]
        exact (List.sublist_cons_self _ _)
      · simp only [delKey, if_neg h1, List.map_cons]
        exact ih.cons₂ _

theorem keys_failAll (e : ErrKind) (reg : RegState) :
    (failAll e reg).map (fun kv => kv.1) = reg.map (fun kv => kv.1) := by
  induction reg with
  | nil => rfl
  | cons kv t ih =>
      show ((if futDone kv.2 then kv else (kv.1, FutState.failed e)) :: failAll e t).map
          (fun kv => kv.1) = _
      by_cases h : futDone kv.2 <;> simp [h, ih]

theorem getKey_failAll (e : ErrKind) (reg : RegState) (k : List Char) :
    getKey (failAll e reg) k
      = (getKey reg k).map (fun f => if futDone f then f else FutState.failed e) := by
  induction reg with
  | nil => rfl
  | cons kv t ih =>
      show getKey ((if futDone kv.2 then kv else (kv.1, FutState.failed e)) :: failAll e t) k = _
      by_cases h2 : futDone kv.2
      · rw [if_pos h2]
        by_cases h1 : kv.1 = k <;> simp [getKey, h1, h2, ih]
      · rw [if_neg h2]
        by_cases h1 : kv.1 = k <;> simp [getKey, h1, h2, ih]

/-! ### Claim theorems -/

theorem issuedIds_eq_range' (c k : Nat) : issuedIds c k = List.range' (c + 1) k := by
  induction k generalizing c with
  | zero => rfl
  | succ k ih =>
      show (c + 1) :: issuedIds (c + 1) k = _
      rw [List.range'_succ, ih]

/-- C5: the `msg_id` values produced by successive `_next_msg_id` calls on one
connection are strictly increasing in issue order and never repeat, and the
registry keys `str(msg_id)` they induce are likewise pairwise distinct, so at
most one pending entry can ever be created per id. -/
theorem C5_msg_ids_strictly_increasing (c k : Nat) :
    (issuedIds c k).Pairwise (· < ·) ∧ (issuedIds c k).Nodup ∧
      ((issuedIds c k).map natToDigits).Nodup := by
  have hp : (issuedIds c k).Pairwise (· < ·) := by
    rw [issuedIds_eq_range' c k]
    exact List.pairwise_lt_range' (c + 1) k
  have hn : (issuedIds c k).Nodup := hp.imp Nat.ne_of_lt
  exact ⟨hp, hn, hn.map (fun a b hab => natToDigits_inj hab)⟩

/-- C6: on a closed client `send_request` raises `ConnectionError` at once —
the state (counter, registry) is untouched and no frame is written. -/
theorem C6_send_request_closed (s : ClientState) (payload : PyDict) (oc : AwaitOutcome)
    (h : s.closed = true) :
    sendRequest s payload oc = (Except.error ErrKind.clientClosed, s, []) := by
  simp [sendRequest, h]

theorem C6_send_request_closed_witness :
    (ClientState.mk (some true) true false false true 5
        [(natToDigits 1, FutState.value Json.null)]).closed = true ∧
    sendRequest (ClientState.mk (some true) true false false true 5
        [(natToDigits 1, FutState.value Json.null)]) [] AwaitOutcome.timedOut
      = (Except.error ErrKind.clientClosed,
         ClientState.mk (some true) true false false true 5
           [(natToDigits 1, FutState.value Json.null)], []) :=
  ⟨rfl, C6_send_request_closed _ [] AwaitOutcome.timedOut rfl⟩

/-- C3 as stated is false: `connect` never checks `self._closed`, so calling
it after `close` (once the torn-down reader reports EOF) opens a fresh
transport and restarts the reader task, even though the client is Closed. -/
theorem C3_counterexample :
    (close (ClientState.mk (some false) true true true false 0 [])).closed = true ∧
    (connect (close (ClientState.mk (some false) true true true false 0 []))).readerAtEof
      = some false ∧
    (connect (close (ClientState.mk (some false) true true true false 0 []))).readerTask
      = true ∧
    (connect (close (ClientState.mk (some false) true true true false 0 []))).closed = true :=
  ⟨rfl, rfl, rfl, rfl⟩

/-- C3 amended: the `_closed` flag itself is terminal — no operation resets
it, and while it is set `send_request` always fails immediately and the
heartbeat loop refuses to run — but `connect` does not consult it and can
re-establish the transport. -/
theorem C3_closed_flag_terminal (s : ClientState) (payload : PyDict) (oc : AwaitOutcome)
    (h : s.closed = true) :
    (connect s).closed = true ∧ (close s).closed = true ∧
      sendRequest s payload oc = (Except.error ErrKind.clientClosed, s, []) ∧
      (heartbeatStep s oc).1 = false := by
  refine ⟨?_, rfl, by simp [sendRequest, h], by simp [heartbeatStep, h]⟩
  unfold connect
  split
  · exact h
  · exact h

theorem C3_closed_flag_terminal_witness :
    (close (ClientState.mk (some false) true true true false 0 [])).closed = true ∧
    (connect (close (ClientState.mk (some false) true true true false 0 []))).closed = true ∧
    sendRequest (close (ClientState.mk (some false) true true true false 0 []))
        [] AwaitOutcome.timedOut
      = (Except.error ErrKind.clientClosed,
         close (ClientState.mk (some false) true true true false 0 []), []) ∧
    (heartbeatStep (close (ClientState.mk (some false) true true true false 0 []))
        AwaitOutcome.timedOut).1 = false :=
  ⟨rfl, (C3_closed_flag_terminal _ [] AwaitOutcome.timedOut rfl).1,
    (C3_closed_flag_terminal _ [] AwaitOutcome.timedOut rfl).2.2.1,
    (C3_closed_flag_terminal _ [] AwaitOutcome.timedOut rfl).2.2.2⟩

/-- C4 witness input: the frame for `{"type": "ping"}` decodes back to it with
the rest of the stream untouched. -/
theorem readMessage_encodeFrame_witness :
    encodeFrame (Json.obj [("type".data, Json.str "ping".data)])
      = some ((encodeFrame (Json.obj [("type".data, Json.str "ping".data)])).getD []) ∧
    readMessage ((encodeFrame (Json.obj [("type".data, Json.str "ping".data)])).getD []
        ++ [0, 0])
      = (some (Json.obj [("type".data, Json.str "ping".data)]), [0, 0]) :=
  ⟨rfl, readMessage_encodeFrame _ _ _ rfl⟩

/-- C2 as stated is false.  A complete, well-framed frame whose body is not
valid JSON (`"notjson"`) makes `_read_message` return `None` — and the reader
loop treats `None` as terminal: it breaks, fails the pending future with
`ConnectionError("Connection lost")`, and never processes the well-formed
reply frame that follows on the stream. -/
theorem C2_counterexample :
    utf8Decode (utf8Encode "notjson".data) = some ("notjson".data) ∧
    jsonLoads "notjson".data = none ∧
    readMessage (be32 ("notjson".data).length ++ utf8Encode "notjson".data
        ++ (encodeFrame (Json.obj [("reply_to".data, Json.int 1)])).getD [])
      = (none, (encodeFrame (Json.obj [("reply_to".data, Json.int 1)])).getD []) ∧
    readMessage ((encodeFrame (Json.obj [("reply_to".data, Json.int 1)])).getD [])
      = (some (Json.obj [("reply_to".data, Json.int 1)]), []) ∧
    readerLoop (be32 ("notjson".data).length ++ utf8Encode "notjson".data
        ++ (encodeFrame (Json.obj [("reply_to".data, Json.int 1)])).getD [])
        [(natToDigits 1, FutState.pending)]
      = ([(natToDigits 1, FutState.failed ErrKind.connLost)], []) :=
  ⟨rfl, rfl, rfl, rfl, rfl⟩

/-- C2 amended: a frame whose body fails to parse as JSON makes the decode
step yield `None`, and the Reader Loop treats that like end of stream — it
exits at once, fails every pending request with a connection-lost error, and
processes no further frames (including any well-formed ones still queued). -/
theorem C2_amended_malformed_frame_fatal (body rest : List Nat) (reg : RegState)
    (fuel : Nat) (chars : List Char)
    (hlen : 0 < body.length) (hlen2 : body.length < 4294967296)
    (hdec : utf8Decode body = some chars)
    (hparse : jsonLoads chars = none) :
    readMessage (be32 body.length ++ (body ++ rest)) = (none, rest) ∧
    readerLoopAux (fuel + 1) (be32 body.length ++ (body ++ rest)) reg
      = (failAll ErrKind.connLost reg, []) := by
  have hb : (be32 body.length).length = 4 := rfl
  have h1 : readMessage (be32 body.length ++ (body ++ rest)) = (none, rest) := by
    unfold readMessage
    rw [show readExact 4 (be32 body.length ++ (body ++ rest))
        = some (be32 body.length, body ++ rest) from by rw [← hb]; exact readExact_append_left _ _]
    dsimp only
    rw [unbe32_be32 hlen2, if_neg (by omega), readExact_append_left]
    dsimp only
    rw [hdec]
    dsimp only
    rw [hparse]
  refine ⟨h1, ?_⟩
  rw [readerLoopAux.eq_def]
  dsimp only
  rw [h1]

theorem C2_amended_malformed_frame_fatal_witness :
    0 < (utf8Encode "notjson".data).length ∧
    (utf8Encode "notjson".data).length < 4294967296 ∧
    utf8Decode (utf8Encode "notjson".data) = some ("notjson".data) ∧
    jsonLoads "notjson".data = none ∧
    (readMessage (be32 (utf8Encode "notjson".data).length
        ++ (utf8Encode "notjson".data ++ [])) = (none, []) ∧
      readerLoopAux (10 + 1) (be32 (utf8Encode "notjson".data).length
          ++ (utf8Encode "notjson".data ++ []))
          [(natToDigits 1, FutState.pending)]
        = (failAll ErrKind.connLost [(natToDigits 1, FutState.pending)], [])) :=
  ⟨by decide, by decide, rfl, rfl,
    C2_amended_malformed_frame_fatal (utf8Encode "notjson".data) [] _ 10 ("notjson".data)
      (by decide) (by decide) rfl rfl⟩

theorem pyStr_int (n : Int) : pyStr (Json.int n) = intToChars n := rfl

theorem intToChars_coe_nat (n : Nat) : intToChars (n : Int) = natToDigits n := by
  unfold intToChars
  rw [if_neg (by omega)]
  simp

theorem intToChars_eq_natToDigits {r : Int} {m : Nat} (h : intToChars r = natToDigits m) :
    r = (m : Int) := by
  by_cases hr : r < 0
  · obtain ⟨c, t, hct, hdig⟩ := natToDigits_cons m
    rw [intToChars, if_pos hr, hct] at h
    injection h with h1 _
    exact absurd h1.symm (isDigitCh_ne hdig).1
  · rw [intToChars, if_neg hr] at h
    have := natToDigits_inj h
    omega

/-- C9: when `_handle_message` resolves the future registered under
`str(msg_id)` with a message whose `reply_to` is an integer, that integer is
the `msg_id` itself, and the future is fulfilled with the whole message — the
value `send_request` then returns. -/
theorem C9_correlation (reg reg2 : RegState) (m : Json) (msgId : Nat) (r : Int)
    (hres : handleMessage reg m = (reg2, some (natToDigits msgId)))
    (hrt : jsonObjGet m ("reply_to".data) = some (Json.int r)) :
    r = (msgId : Int) ∧ getKey reg2 (natToDigits msgId) = some (FutState.value m) := by
  unfold handleMessage at hres
  rw [hrt] at hres
  dsimp only at hres
  rw [if_neg (by simp [isNullJson])] at hres
  rcases hg : getKey reg (pyStr (Json.int r)) with _ | f
  · rw [hg] at hres
    simp at hres
  · cases f with
    | pending =>
        rw [hg] at hres
        dsimp only at hres
        injection hres with h1 h2
        injection h2 with h2
        have hr : r = (msgId : Int) := intToChars_eq_natToDigits (pyStr_int r ▸ h2)
        refine ⟨hr, ?_⟩
        rw [← h1, ← h2]
        exact getKey_setKey reg (pyStr (Json.int r)) (FutState.value m)
    | value m2 =>
        rw [hg] at hres
        simp at hres
    | failed e =>
        rw [hg] at hres
        simp at hres
    | canceled =>
        rw [hg] at hres
        simp at hres

theorem C9_correlation_witness :
    handleMessage [(natToDigits 1, FutState.pending)]
        (Json.obj [("reply_to".data, Json.int 1), ("payload".data, Json.str "hi".data)])
      = ([(natToDigits 1, FutState.value (Json.obj [("reply_to".data, Json.int 1),
          ("payload".data, Json.str "hi".data)]))], some (natToDigits 1)) ∧
    jsonObjGet (Json.obj [("reply_to".data, Json.int 1), ("payload".data, Json.str "hi".data)])
        ("reply_to".data) = some (Json.int 1) ∧
    ((1 : Int) = ((1 : Nat) : Int) ∧
      getKey [(natToDigits 1, FutState.value (Json.obj [("reply_to".data, Json.int 1),
          ("payload".data, Json.str "hi".data)]))] (natToDigits 1)
        = some (FutState.value (Json.obj [("reply_to".data, Json.int 1),
            ("payload".data, Json.str "hi".data)]))) :=
  ⟨rfl, rfl,
    C9_correlation [(natToDigits 1, FutState.pending)]
      [(natToDigits 1, FutState.value (Json.obj [("reply_to".data, Json.int 1),
        ("payload".data, Json.str "hi".data)]))]
      (Json.obj [("reply_to".data, Json.int 1), ("payload".data, Json.str "hi".data)])
      1 1 rfl rfl⟩

/-- C7: when `wait_for` times out, `send_request` raises the Timeout kind and
the `finally` block pops the entry, so the registry is back to what it was,
the `msg_id` key is absent, and a late reply carrying that `msg_id` resolves
nothing — `_handle_message` falls through to the notification path with the
registry unchanged. -/
theorem C7_timeout_removes_entry (s : ClientState) (payload : PyDict)
    (hcl : s.closed = false) (hw : s.writerSet = true)
    (hfresh : getKey s.futures (natToDigits (s.counter + 1)) = none)
    (frame : List Nat)
    (henc : encodeFrame (Json.obj (setKey (setDefaultKey payload ("type".data)
        (Json.str "request".data)) ("msg_id".data)
        (Json.int ((s.counter + 1 : Nat) : Int)))) = some frame) :
    (sendRequest s payload AwaitOutcome.timedOut).1 = Except.error ErrKind.timeoutErr ∧
    (sendRequest s payload AwaitOutcome.timedOut).2.1.futures = s.futures ∧
    getKey (sendRequest s payload AwaitOutcome.timedOut).2.1.futures
      (natToDigits (s.counter + 1)) = none ∧
    ∀ m, jsonObjGet m ("reply_to".data) = some (Json.int ((s.counter + 1 : Nat) : Int)) →
      handleMessage (sendRequest s payload AwaitOutcome.timedOut).2.1.futures m
        = ((sendRequest s payload AwaitOutcome.timedOut).2.1.futures, none) := by
  have hkey : delKey (setKey s.futures (natToDigits (s.counter + 1)) FutState.pending)
      (natToDigits (s.counter + 1)) = s.futures := delKey_setKey_fresh _ _ _ hfresh
  have hsr : sendRequest s payload AwaitOutcome.timedOut
      = (Except.error ErrKind.timeoutErr,
         { s with counter := s.counter + 1, futures := s.futures }, [frame]) := by
    unfold sendRequest
    rw [if_neg (by simp [hcl]), if_pos hw]
    dsimp only [nextMsgId]
    rw [henc]
    dsimp only
    rw [hkey]
  rw [hsr]
  refine ⟨rfl, rfl, hfresh, ?_⟩
  intro m hm
  unfold handleMessage
  rw [hm]
  dsimp only
  rw [if_neg (by simp [isNullJson])]
  rw [pyStr_int, intToChars_coe_nat, hfresh]

theorem C7_timeout_removes_entry_witness :
    (sendRequest (ClientState.mk (some false) true true true false 0 []) []
        AwaitOutcome.timedOut).1 = Except.error ErrKind.timeoutErr ∧
    (sendRequest (ClientState.mk (some false) true true true false 0 []) []
        AwaitOutcome.timedOut).2.1.futures = [] ∧
    handleMessage (sendRequest (ClientState.mk (some false) true true true false 0 []) []
        AwaitOutcome.timedOut).2.1.futures (Json.obj [("reply_to".data, Json.int 1)])
      = ((sendRequest (ClientState.mk (some false) true true true false 0 []) []
          AwaitOutcome.timedOut).2.1.futures, none) := by
  have h := C7_timeout_removes_entry (ClientState.mk (some false) true true true false 0 [])
    [] rfl rfl rfl
    ((encodeFrame (Json.obj (setKey (setDefaultKey [] ("type".data)
        (Json.str "request".data)) ("msg_id".data) (Json.int ((0 + 1 : Nat) : Int))))).getD [])
    rfl
  exact ⟨h.1, h.2.1, h.2.2.2 (Json.obj [("reply_to".data, Json.int 1)]) rfl⟩

/-- C10: `send_request` never mutates the caller payload object.  The copy
`payload = dict(payload)` is a fresh reference; `setdefault` and the `msg_id`
assignment hit only the copy, so the caller dict is bit-for-bit what it was
(in particular it gained no `type` or `msg_id` keys), while the outgoing
message is the copy with `type` defaulted and `msg_id` set. -/
theorem C10_payload_not_mutated (st : Store) (r : Nat) (msgId : Nat) (h : r < st.length) :
    (buildOutgoing st r msgId).1[r]? = st[r]? ∧
    (buildOutgoing st r msgId).2 ≠ r ∧
    storeGet (buildOutgoing st r msgId).1 (buildOutgoing st r msgId).2
      = setKey (setDefaultKey (storeGet st r) ("type".data) (Json.str "request".data))
          ("msg_id".data) (Json.int msgId) := by
  have hLr : st.length ≠ r := by omega
  refine ⟨?_, ?_, ?_⟩
  · show (((st ++ [storeGet st r]).set st.length _).set st.length _)[r]? = st[r]?
    rw [List.getElem?_set_ne hLr, List.getElem?_set_ne hLr]
    exact List.getElem?_append_left h
  · exact hLr
  · have hA : (st ++ [st.getD r []]).getD st.length [] = st.getD r [] := by
      simp [List.getD_eq_getElem?_getD, List.getElem?_concat_length]
    have hlt : st.length < (st ++ [st.getD r []]).length := by simp
    have hset1 : ∀ d : PyDict, ((st ++ [st.getD r []]).set st.length d).getD st.length [] = d := by
      intro d
      simp [List.getD_eq_getElem?_getD, List.getElem?_set_self hlt]
    have hset2 : ∀ d d2 : PyDict,
        (((st ++ [st.getD r []]).set st.length d).set st.length d2).getD st.length [] = d2 := by
      intro d d2
      have hlt2 : st.length < ((st ++ [st.getD r []]).set st.length d).length := by simp
      simp [List.getD_eq_getElem?_getD, List.getElem?_set_self hlt2]
    simp only [buildOutgoing, storeSet, storeGet]
    rw [hset2, hset1, hA]

theorem C10_payload_not_mutated_witness :
    0 < (([[("text".data, Json.str "hi".data)]] : Store)).length ∧
    (buildOutgoing [[("text".data, Json.str "hi".data)]] 0 1).1[0]?
        = ([[("text".data, Json.str "hi".data)]] : Store)[0]? ∧
    (buildOutgoing [[("text".data, Json.str "hi".data)]] 0 1).2 ≠ 0 ∧
    storeGet (buildOutgoing [[("text".data, Json.str "hi".data)]] 0 1).1
        (buildOutgoing [[("text".data, Json.str "hi".data)]] 0 1).2
      = setKey (setDefaultKey (storeGet [[("text".data, Json.str "hi".data)]] 0)
          ("type".data) (Json.str "request".data)) ("msg_id".data) (Json.int 1) :=
  ⟨by decide, (C10_payload_not_mutated [[("text".data, Json.str "hi".data)]] 0 1 (by decide)).1,
    (C10_payload_not_mutated [[("text".data, Json.str "hi".data)]] 0 1 (by decide)).2.1,
    (C10_payload_not_mutated [[("text".data, Json.str "hi".data)]] 0 1 (by decide)).2.2⟩

theorem sendRequest_canceled_only (s : ClientState) (p : PyDict) (oc : AwaitOutcome)
    (h : (sendRequest s p oc).1 = Except.error ErrKind.canceledErr) :
    oc = AwaitOutcome.canceledAw ∨ oc = AwaitOutcome.failedWith ErrKind.canceledErr := by
  unfold sendRequest at h
  by_cases hc : s.closed = true
  · rw [if_pos hc] at h
    simp at h
  · rw [if_neg hc] at h
    dsimp only at h
    split at h
    · simp at h
    · cases oc with
      | fulfilled m => simp at h
      | failedWith e =>
          right
          simp only [] at h
          cases e <;> simp_all
      | timedOut => simp at h
      | canceledAw => exact Or.inl rfl

/-- C8: a heartbeat that fails with a timeout or a connection error is
swallowed by `except Exception: pass` — the loop continues, the client is not
closed, and the transport fields are untouched; and the loop can only stop
when the client is already `_closed` or the heartbeat task itself was
cancelled (a `CancelledError` is not an `Exception`). -/
theorem C8_heartbeat_failures_harmless (s : ClientState) (oc : AwaitOutcome)
    (hc : s.closed = false) (hw : s.writerSet = true)
    (hoc : oc = AwaitOutcome.timedOut ∨ oc = AwaitOutcome.failedWith ErrKind.connLost ∨
      oc = AwaitOutcome.failedWith ErrKind.clientClosed) :
    (heartbeatStep s oc).1 = true ∧
    (heartbeatStep s oc).2.closed = false ∧
    (heartbeatStep s oc).2.readerAtEof = s.readerAtEof ∧
    (heartbeatStep s oc).2.writerSet = true ∧
    (heartbeatStep s oc).2.readerTask = s.readerTask ∧
    ∀ s2 oc2, (heartbeatStep s2 oc2).1 = false →
      s2.closed = true ∨ oc2 = AwaitOutcome.canceledAw ∨
        oc2 = AwaitOutcome.failedWith ErrKind.canceledErr := by
  have hrun : (heartbeatStep s oc).1 = true ∧
      (heartbeatStep s oc).2.closed = false ∧
      (heartbeatStep s oc).2.readerAtEof = s.readerAtEof ∧
      (heartbeatStep s oc).2.writerSet = true ∧
      (heartbeatStep s oc).2.readerTask = s.readerTask := by
    rcases hoc with h | h | h <;> subst h <;>
      · unfold heartbeatStep sendRequest
        rw [if_neg (by simp [hc]), if_neg (by simp [hc]), if_pos hw]
        dsimp only
        split <;> rename_i heq <;> split at heq <;> simp at heq <;>
          (obtain ⟨h1, h2, h3⟩ := heq; subst h2; simp [hc, hw])
  refine ⟨hrun.1, hrun.2.1, hrun.2.2.1, hrun.2.2.2.1, hrun.2.2.2.2, ?_⟩
  intro s2 oc2 hf
  by_cases hcl2 : s2.closed = true
  · exact Or.inl hcl2
  · right
    unfold heartbeatStep at hf
    rw [if_neg hcl2] at hf
    rcases hsr : sendRequest s2 heartbeatPayload oc2 with ⟨res, st2, ws⟩
    rw [hsr] at hf
    cases res with
    | ok m => simp at hf
    | error e =>
        cases e with
        | canceledErr =>
            exact sendRequest_canceled_only s2 heartbeatPayload oc2 (by rw [hsr])
        | clientClosed => simp at hf
        | connLost => simp at hf
        | timeoutErr => simp at hf
        | packError => simp at hf

theorem C8_heartbeat_failures_harmless_witness :
    (ClientState.mk (some false) true true true false 0 []).closed = false ∧
    (ClientState.mk (some false) true true true false 0 []).writerSet = true ∧
    (AwaitOutcome.timedOut = AwaitOutcome.timedOut ∨
      AwaitOutcome.timedOut = AwaitOutcome.failedWith ErrKind.connLost ∨
      AwaitOutcome.timedOut = AwaitOutcome.failedWith ErrKind.clientClosed) ∧
    ((heartbeatStep (ClientState.mk (some false) true true true false 0 [])
        AwaitOutcome.timedOut).1 = true ∧
      (heartbeatStep (ClientState.mk (some false) true true true false 0 [])
        AwaitOutcome.timedOut).2.closed = false ∧
      (heartbeatStep (ClientState.mk (some false) true true true false 0 [])
        AwaitOutcome.timedOut).2.readerAtEof
        = (ClientState.mk (some false) true true true false 0 []).readerAtEof ∧
      (heartbeatStep (ClientState.mk (some false) true true true false 0 [])
        AwaitOutcome.timedOut).2.writerSet = true) :=
  ⟨rfl, rfl, Or.inl rfl,
    (C8_heartbeat_failures_harmless _ AwaitOutcome.timedOut rfl rfl (Or.inl rfl)).1,
    (C8_heartbeat_failures_harmless _ AwaitOutcome.timedOut rfl rfl (Or.inl rfl)).2.1,
    (C8_heartbeat_failures_harmless _ AwaitOutcome.timedOut rfl rfl (Or.inl rfl)).2.2.1,
    (C8_heartbeat_failures_harmless _ AwaitOutcome.timedOut rfl rfl (Or.inl rfl)).2.2.2.1⟩

/-! ### Exactly-once resolution -/

theorem futDone_false_pending {f : FutState} (h : futDone f = false) : f = FutState.pending := by
  cases f <;> simp [futDone] at h ⊢

theorem handleMessage_resolves {reg reg2 : RegState} {m : Json} {k : List Char}
    (h : handleMessage reg m = (reg2, some k)) :
    getKey reg k = some FutState.pending ∧ reg2 = setKey reg k (FutState.value m) := by
  unfold handleMessage at h
  rcases hr : jsonObjGet m ("reply_to".data) with _ | rtv
  · rw [hr] at h
    simp at h
  · rw [hr] at h
    dsimp only at h
    by_cases hn : isNullJson rtv = true
    · rw [if_pos hn] at h
      simp at h
    · rw [if_neg hn] at h
      rcases hg : getKey reg (pyStr rtv) with _ | f
      · rw [hg] at h
        simp at h
      · cases f with
        | pending =>
            rw [hg] at h
            dsimp only at h
            injection h with h1 h2
            injection h2 with h2
            subst h2
            exact ⟨hg, h1.symm⟩
        | value m2 => rw [hg] at h; simp at h
        | failed e => rw [hg] at h; simp at h
        | canceled => rw [hg] at h; simp at h

theorem handleMessage_skips {reg reg2 : RegState} {m : Json}
    (h : handleMessage reg m = (reg2, none)) : reg2 = reg := by
  unfold handleMessage at h
  rcases hr : jsonObjGet m ("reply_to".data) with _ | rtv
  · rw [hr] at h
    simp at h
    exact h.symm
  · rw [hr] at h
    dsimp only at h
    by_cases hn : isNullJson rtv = true
    · rw [if_pos hn] at h
      simp at h
      exact h.symm
    · rw [if_neg hn] at h
      rcases hg : getKey reg (pyStr rtv) with _ | f
      · rw [hg] at h
        simp at h
        exact h.symm
      · cases f with
        | pending => rw [hg] at h; simp at h
        | value m2 => rw [hg] at h; simp at h; exact h.symm
        | failed e => rw [hg] at h; simp at h; exact h.symm
        | canceled => rw [hg] at h; simp at h; exact h.symm

theorem mem_pendingKeys_mem_keys {reg : RegState} {k : List Char}
    (h : k ∈ pendingKeys reg) : k ∈ reg.map (fun kv => kv.1) := by
  unfold pendingKeys at h
  obtain ⟨kv, hkv, rfl⟩ := List.mem_map.mp h
  exact List.mem_map.mpr ⟨kv, (List.mem_filter.mp hkv).1, rfl⟩

theorem pendingKeys_getKey {reg : RegState} {k : List Char}
    (hnd : regKeysNodup reg) (hk : k ∈ pendingKeys reg) :
    getKey reg k = some FutState.pending := by
  induction reg with
  | nil => simp [pendingKeys] at hk
  | cons kv t ih =>
      have hnd2 : (t.map (fun kv => kv.1)).Nodup := (List.nodup_cons.mp hnd).2
      have hout : kv.1 ∉ t.map (fun kv => kv.1) := (List.nodup_cons.mp hnd).1
      by_cases hd : futDone kv.2
      · have hfilter : pendingKeys (kv :: t) = pendingKeys t := by
          simp [pendingKeys, List.filter_cons, hd]
        rw [hfilter] at hk
        have hne : ¬kv.1 = k := fun he => hout (he.symm ▸ mem_pendingKeys_mem_keys hk)
        simp only [getKey, if_neg hne]
        exact ih hnd2 hk
      · have hfilter : pendingKeys (kv :: t) = kv.1 :: pendingKeys t := by
          simp [pendingKeys, List.filter_cons, hd]
        rw [hfilter] at hk
        rcases List.mem_cons.mp hk with h | h
        · subst h
          have hdf : futDone kv.2 = false := by simpa using hd
          have hp := futDone_false_pending hdf
          simp [getKey, hp]
        · have hne : ¬kv.1 = k := fun he => hout (he.symm ▸ mem_pendingKeys_mem_keys h)
          simp only [getKey, if_neg hne]
          exact ih hnd2 h

theorem pendingKeys_nodup {reg : RegState} (hnd : regKeysNodup reg) :
    (pendingKeys reg).Nodup :=
  hnd.sublist ((List.filter_sublist _).map _)

theorem stepEv_reply (reg : RegState) (m : Json) :
    stepEv reg (REvent.reply m)
      = (match handleMessage reg m with
         | (reg2, some k) => (reg2, [k])
         | (reg2, none) => (reg2, [])) := rfl

theorem stepEv_timeout (reg : RegState) (k : List Char) :
    stepEv reg (REvent.timeoutFire k)
      = (match getKey reg k with
         | some FutState.pending => (delKey reg k, [k])
         | _ => (delKey reg k, [])) := rfl

theorem stepEv_readerExit (reg : RegState) :
    stepEv reg REvent.readerExit = (failAll ErrKind.connLost reg, pendingKeys reg) := rfl

theorem stepEv_closeCall (reg : RegState) :
    stepEv reg REvent.closeCall = (failAll ErrKind.clientClosed reg, pendingKeys reg) := rfl

theorem stepEv_resolved_pending {reg : RegState} {e : REvent} {k : List Char}
    (hnd : regKeysNodup reg) (hk : k ∈ (stepEv reg e).2) :
    getKey reg k = some FutState.pending := by
  cases e with
  | reply m =>
      rw [stepEv_reply] at hk
      rcases hh : handleMessage reg m with ⟨reg2, ok⟩
      rw [hh] at hk
      cases ok with
      | none => simp at hk
      | some k2 =>
          simp at hk
          subst hk
          exact (handleMessage_resolves hh).1
  | timeoutFire k2 =>
      rw [stepEv_timeout] at hk
      rcases hg : getKey reg k2 with _ | f
      · rw [hg] at hk
        simp at hk
      · cases f with
        | pending =>
            rw [hg] at hk
            simp at hk
            subst hk
            exact hg
        | value m2 => rw [hg] at hk; simp at hk
        | failed e2 => rw [hg] at hk; simp at hk
        | canceled => rw [hg] at hk; simp at hk
  | readerExit => exact pendingKeys_getKey hnd hk
  | closeCall => exact pendingKeys_getKey hnd hk

theorem failAll_not_pending (e : ErrKind) (reg : RegState) (k : List Char) :
    getKey (failAll e reg) k ≠ some FutState.pending := by
  rw [getKey_failAll]
  rcases getKey reg k with _ | f
  · simp
  · by_cases hd : futDone f
    · simp only [Option.map_some', if_pos hd]
      intro h
      injection h with h
      subst h
      simp [futDone] at hd
    · simp [hd]

theorem stepEv_not_pending_after {reg : RegState} {e : REvent} {k : List Char}
    (hnd : regKeysNodup reg)
    (h : k ∈ (stepEv reg e).2 ∨ getKey reg k ≠ some FutState.pending) :
    getKey (stepEv reg e).1 k ≠ some FutState.pending := by
  cases e with
  | reply m =>
      rcases hh : handleMessage reg m with ⟨reg2, ok⟩
      have hstep : (stepEv reg (REvent.reply m)).1 = reg2 := by
        rw [stepEv_reply, hh]
        cases ok <;> rfl
      have hres : (stepEv reg (REvent.reply m)).2 = ok.toList := by
        rw [stepEv_reply, hh]
        cases ok <;> rfl
      rw [hstep]
      cases ok with
      | none =>
          rw [handleMessage_skips hh]
          rcases h with h | h
          · rw [hres] at h
            simp at h
          · exact h
      | some k2 =>
          obtain ⟨hpend, hreg2⟩ := handleMessage_resolves hh
          subst hreg2
          by_cases hk2 : k = k2
          · subst hk2
            rw [getKey_setKey]
            intro hcontra
            injection hcontra with hcontra
            exact FutState.noConfusion hcontra
          · rw [getKey_setKey_ne reg k2 k _ hk2]
            rcases h with h | h
            · rw [hres] at h
              simp at h
              exact absurd h hk2
            · exact h
  | timeoutFire k2 =>
      have hstep : (stepEv reg (REvent.timeoutFire k2)).1 = delKey reg k2 := by
        rw [stepEv_timeout]
        rcases hg : getKey reg k2 with _ | f
        · rfl
        · cases f <;> rfl
      rw [hstep]
      by_cases hk2 : k = k2
      · subst hk2
        rw [getKey_delKey_self reg k hnd]
        simp
      · rw [getKey_delKey_ne reg k2 k hk2]
        rcases h with h | h
        · rw [stepEv_timeout] at h
          rcases hg : getKey reg k2 with _ | f
          · rw [hg] at h
            simp at h
          · cases f with
            | pending =>
                rw [hg] at h
                simp at h
                exact absurd h hk2
            | value m2 => rw [hg] at h; simp at h
            | failed e2 => rw [hg] at h; simp at h
            | canceled => rw [hg] at h; simp at h
        · exact h
  | readerExit => exact failAll_not_pending _ reg k
  | closeCall => exact failAll_not_pending _ reg k

theorem stepEv_keys_nodup {reg : RegState} (e : REvent) (hnd : regKeysNodup reg) :
    regKeysNodup (stepEv reg e).1 := by
  cases e with
  | reply m =>
      rcases hh : handleMessage reg m with ⟨reg2, ok⟩
      have hstep : (stepEv reg (REvent.reply m)).1 = reg2 := by
        rw [stepEv_reply, hh]
        cases ok <;> rfl
      rw [hstep]
      cases ok with
      | none => rw [handleMessage_skips hh]; exact hnd
      | some k2 =>
          obtain ⟨hpend, hreg2⟩ := handleMessage_resolves hh
          subst hreg2
          unfold regKeysNodup
          rw [keys_setKey_present reg k2 _ _ hpend]
          exact hnd
  | timeoutFire k2 =>
      have hstep : (stepEv reg (REvent.timeoutFire k2)).1 = delKey reg k2 := by
        rw [stepEv_timeout]
        rcases hg : getKey reg k2 with _ | f
        · rfl
        · cases f <;> rfl
      rw [hstep]
      exact hnd.sublist (keys_delKey_sublist reg k2)
  | readerExit =>
      show regKeysNodup (failAll ErrKind.connLost reg)
      unfold regKeysNodup
      rw [keys_failAll]
      exact hnd
  | closeCall =>
      show regKeysNodup (failAll ErrKind.clientClosed reg)
      unfold regKeysNodup
      rw [keys_failAll]
      exact hnd

theorem countKey_append (k : List Char) (a b : List (List Char)) :
    countKey k (a ++ b) = countKey k a + countKey k b := by
  simp [countKey, List.filter_append]

theorem countKey_eq_zero {k : List Char} {l : List (List Char)} (h : k ∉ l) :
    countKey k l = 0 := by
  unfold countKey
  rw [List.length_eq_zero]
  rw [List.filter_eq_nil_iff]
  intro a ha
  simp only [decide_eq_true_eq]
  intro he
  exact h (he ▸ ha)

theorem countKey_le_one_of_nodup {k : List Char} {l : List (List Char)} (h : l.Nodup) :
    countKey k l ≤ 1 := by
  unfold countKey
  have hnodup := h.filter (fun x => decide (x = k))
  match hf : l.filter (fun x => decide (x = k)) with
  | [] => simp
  | [a] => simp
  | a :: b :: t =>
      exfalso
      have ha : a ∈ l.filter (fun x => decide (x = k)) := by rw [hf]; simp
      have hb : b ∈ l.filter (fun x => decide (x = k)) := by rw [hf]; simp
      have ha2 : a = k := by simpa using (List.mem_filter.mp ha).2
      have hb2 : b = k := by simpa using (List.mem_filter.mp hb).2
      rw [hf] at hnodup
      have := (List.nodup_cons.mp hnodup).1
      exact this (by rw [ha2, ← hb2]; simp)

theorem stepEv_resolved_le_one {reg : RegState} (e : REvent) (k : List Char)
    (hnd : regKeysNodup reg) : countKey k (stepEv reg e).2 ≤ 1 := by
  cases e with
  | reply m =>
      rw [stepEv_reply]
      rcases handleMessage reg m with ⟨reg2, _ | k2⟩
      · simp [countKey]
      · exact countKey_le_one_of_nodup (by simp)
  | timeoutFire k2 =>
      rw [stepEv_timeout]
      rcases getKey reg k2 with _ | f
      · simp [countKey]
      · cases f
        · exact countKey_le_one_of_nodup (by simp)
        · simp [countKey]
        · simp [countKey]
        · simp [countKey]
  | readerExit =>
      rw [stepEv_readerExit]
      exact countKey_le_one_of_nodup (pendingKeys_nodup hnd)
  | closeCall =>
      rw [stepEv_closeCall]
      exact countKey_le_one_of_nodup (pendingKeys_nodup hnd)

theorem runEv_no_resolve (evs : List REvent) : ∀ (reg : RegState) (k : List Char),
    regKeysNodup reg → getKey reg k ≠ some FutState.pending →
    countKey k (runEv reg evs).2 = 0 := by
  induction evs with
  | nil => intro reg k _ _; simp [runEv, countKey]
  | cons e es ih =>
      intro reg k hnd hnp
      show countKey k ((stepEv reg e).2 ++ (runEv (stepEv reg e).1 es).2) = 0
      rw [countKey_append]
      have h1 : countKey k (stepEv reg e).2 = 0 := by
        refine countKey_eq_zero (fun hk => ?_)
        exact hnp (stepEv_resolved_pending hnd hk)
      have h2 : countKey k (runEv (stepEv reg e).1 es).2 = 0 :=
        ih (stepEv reg e).1 k (stepEv_keys_nodup e hnd)
          (stepEv_not_pending_after hnd (Or.inr hnp))
      omega

theorem runEv_at_most_once (evs : List REvent) : ∀ (reg : RegState) (k : List Char),
    regKeysNodup reg → countKey k (runEv reg evs).2 ≤ 1 := by
  induction evs with
  | nil => intro reg k _; simp [runEv, countKey]
  | cons e es ih =>
      intro reg k hnd
      show countKey k ((stepEv reg e).2 ++ (runEv (stepEv reg e).1 es).2) ≤ 1
      rw [countKey_append]
      by_cases hk : k ∈ (stepEv reg e).2
      · have h1 : countKey k (stepEv reg e).2 ≤ 1 := stepEv_resolved_le_one e k hnd
        have h2 : countKey k (runEv (stepEv reg e).1 es).2 = 0 :=
          runEv_no_resolve es (stepEv reg e).1 k (stepEv_keys_nodup e hnd)
            (stepEv_not_pending_after hnd (Or.inl hk))
        omega
      · have h1 : countKey k (stepEv reg e).2 = 0 := countKey_eq_zero hk
        have h2 := ih (stepEv reg e).1 k (stepEv_keys_nodup e hnd)
        omega

/-- C1: exactly-once resolution.  Over any interleaving of reply dispatch,
`wait_for` timeouts, reader-loop exit, and `close` — each resolution site
guarded by `fut and not fut.done()` exactly as in the source — a given
future is resolved at most once; and a `close` resolves every still-pending
future, so no registered request is left unresolved when the client goes
away.  Together with the bounded `wait_for` this is the exactly-once
guarantee of `send_request`. -/
theorem C1_exactly_once_resolution (reg : RegState) (evs : List REvent) (k : List Char)
    (hnd : regKeysNodup reg) :
    countKey k (runEv reg evs).2 ≤ 1 ∧
    ∀ k2, getKey (stepEv reg REvent.closeCall).1 k2 ≠ some FutState.pending := by
  refine ⟨runEv_at_most_once evs reg k hnd, fun k2 => ?_⟩
  rw [stepEv_closeCall]
  exact failAll_not_pending ErrKind.clientClosed reg k2

theorem C1_exactly_once_resolution_witness :
    regKeysNodup [(natToDigits 1, FutState.pending), (natToDigits 2, FutState.pending)] ∧
    countKey (natToDigits 1)
      (runEv [(natToDigits 1, FutState.pending), (natToDigits 2, FutState.pending)]
        [REvent.reply (Json.obj [("reply_to".data, Json.int 1)]),
         REvent.timeoutFire (natToDigits 1),
         REvent.reply (Json.obj [("reply_to".data, Json.int 1)]),
         REvent.closeCall, REvent.readerExit,
         REvent.timeoutFire (natToDigits 2)]).2 ≤ 1 ∧
    getKey (stepEv [(natToDigits 1, FutState.pending), (natToDigits 2, FutState.pending)]
        REvent.closeCall).1 (natToDigits 2) ≠ some FutState.pending :=
  ⟨by unfold regKeysNodup; decide,
    (C1_exactly_once_resolution _ _ (natToDigits 1) (by unfold regKeysNodup; decide)).1,
    (C1_exactly_once_resolution
        [(natToDigits 1, FutState.pending), (natToDigits 2, FutState.pending)]
        [] (natToDigits 1) (by unfold regKeysNodup; decide)).2 (natToDigits 2)⟩
